import Mathlib

/-!
Verification of the data-reconciliation core of the fakegotchis-subgraphs
comparison tool.  The definitions below are a shallow embedding of the
TypeScript sources `src/subgraph-comparison.ts` and
`src/contract-comparison.ts`:

* JavaScript `Map` objects (insertion ordered, `set` overwrites in place)
  are embedded as association lists `List (String × α)` with a first-match
  update `mapSet` and first-match lookup `lookupMap`;
* JavaScript `number` fields holding integral counts are embedded as `Nat`;
* `Number.prototype.toString` on an index is embedded as Lean's `toString`
  (decimal rendering, `Nat.repr`);
* the paginated network fetch is embedded as a function from the `skip`
  offset to the batch the server returns for that offset.
-/

/-- Token record returned by the subgraphs (`FakeGotchiNFTToken` in
`src/subgraph-comparison.ts`). -/
structure FakeGotchiNFTToken where
  id : String
  identifier : String
  name : String
  artistName : String
  editions : Nat
deriving DecidableEq, Repr

/-- Collection record built by `groupIntoCollections`
(`Collection` in `src/subgraph-comparison.ts`). -/
structure Collection where
  id : String
  name : String
  artistName : String
  editions : Nat
  tokenIds : List String
deriving DecidableEq, Repr

/-- The composite grouping key built by `groupIntoCollections`:
the template literal `name-artistName` with a literal dash separator. -/
def collectionKey (t : FakeGotchiNFTToken) : String :=
  t.name ++ "-" ++ t.artistName

/-- The composite key recomputed from a collection record; a collection
stores the `name` and `artistName` of the token that created it. -/
def collKey (c : Collection) : String :=
  c.name ++ "-" ++ c.artistName

/-- The fresh collection created by `groupIntoCollections` for an unseen
key: placeholder id, the token's name and artist, one edition, one member. -/
def newCollection (t : FakeGotchiNFTToken) : Collection :=
  { id := "", name := t.name, artistName := t.artistName,
    editions := 1, tokenIds := [t.identifier] }

/-- The update `groupIntoCollections` applies to an existing collection:
increment `editions` and push the token's identifier. -/
def bumpCollection (c : Collection) (t : FakeGotchiNFTToken) : Collection :=
  { c with editions := c.editions + 1,
           tokenIds := c.tokenIds ++ [t.identifier] }

/-- One step of the grouping loop body of `groupIntoCollections`: if the
key is present in the map, increment `editions` and push the identifier,
otherwise insert a fresh collection with a placeholder id.  The JS `Map`
holds at most one entry per key; the first-match update below agrees with
it on every state reachable from the empty map. -/
def insertToken : List (String × Collection) → FakeGotchiNFTToken →
    List (String × Collection)
  | [], t => [(collectionKey t, newCollection t)]
  | p :: ps, t =>
    if p.1 = collectionKey t then
      (p.1, bumpCollection p.2 t) :: ps
    else
      p :: insertToken ps t

/-- The `collections` map of `groupIntoCollections` after the main loop. -/
def groupAssoc (ts : List FakeGotchiNFTToken) : List (String × Collection) :=
  ts.foldl insertToken []

/-- The final `.map((collection, index) => ({...collection,
id: (index + 1).toString()}))` of `groupIntoCollections`, with the
1-based counter made explicit. -/
def assignIds : Nat → List Collection → List Collection
  | _, [] => []
  | n, c :: cs => { c with id := toString n } :: assignIds (n + 1) cs

/-- `groupIntoCollections` from `src/subgraph-comparison.ts` (lines
104-136): group tokens by the composite key, then assign incremental
string ids starting at 1. -/
def groupIntoCollections (ts : List FakeGotchiNFTToken) : List Collection :=
  assignIds 1 ((groupAssoc ts).map Prod.snd)

/-- First-occurrence deduplication, accumulator form; models the key set
of a JS `Map` (or the element set of a JS `Set`) in insertion order. -/
def firstSeenFrom {α : Type} [DecidableEq α] (acc : List α) :
    List α → List α
  | [] => acc
  | k :: ks => firstSeenFrom (if k ∈ acc then acc else acc ++ [k]) ks

/-- First-occurrence deduplication of a list. -/
def firstSeen {α : Type} [DecidableEq α] (l : List α) : List α :=
  firstSeenFrom [] l

/-! ### Decimal rendering: `Nat.repr` is injective

`groupIntoCollections` and `findCollectionDifferences` build string ids
with `toString`; to compare those ids we prove that Lean's decimal
rendering of naturals (the embedding of JS `Number.prototype.toString`)
is injective, via a left-inverse decoder. -/

/-- Numeric value of a decimal digit character. -/
def charVal (c : Char) : Nat := c.toNat - 48

/-- Decode a decimal digit string (left fold, most significant first). -/
def decodeDigits (l : List Char) : Nat :=
  l.foldl (fun acc c => acc * 10 + charVal c) 0

theorem charVal_digitChar (d : Nat) (h : d < 10) :
    charVal (Nat.digitChar d) = d := by
  interval_cases d <;> decide

theorem foldl_decode_init (ds : List Char) :
    ∀ s : Nat, ds.foldl (fun acc c => acc * 10 + charVal c) s =
      s * 10 ^ ds.length + decodeDigits ds := by
  induction ds with
  | nil => intro s; simp [decodeDigits]
  | cons c tl ih =>
    intro s
    have h1 := ih (s * 10 + charVal c)
    have h2 := ih (0 * 10 + charVal c)
    simp only [List.foldl_cons, decodeDigits] at *
    rw [h1, h2]
    simp only [List.length_cons]
    ring

theorem decode_toDigitsCore (fuel : Nat) :
    ∀ n ds, n < fuel →
      decodeDigits (Nat.toDigitsCore 10 fuel n ds) =
        n * 10 ^ ds.length + decodeDigits ds := by
  induction fuel with
  | zero => intro n ds h; omega
  | succ fuel ih =>
    intro n ds h
    rw [Nat.toDigitsCore]
    by_cases h10 : n / 10 = 0
    · have hn : n < 10 := by omega
      simp only [h10, if_true]
      have : decodeDigits (Nat.digitChar (n % 10) :: ds) =
          (Nat.digitChar (n % 10) :: ds).foldl
            (fun acc c => acc * 10 + charVal c) 0 := rfl
      rw [this, List.foldl_cons, foldl_decode_init]
      have : charVal (Nat.digitChar (n % 10)) = n % 10 :=
        charVal_digitChar _ (Nat.mod_lt _ (by omega))
      rw [this]
      have : n % 10 = n := Nat.mod_eq_of_lt hn
      rw [this]
      ring
    · simp only [h10, if_false]
      have hdiv : n / 10 < fuel := by
        have h1 : n / 10 < n := Nat.div_lt_self (by omega) (by omega)
        omega
      rw [ih (n / 10) (Nat.digitChar (n % 10) :: ds) hdiv]
      have : decodeDigits (Nat.digitChar (n % 10) :: ds) =
          (Nat.digitChar (n % 10) :: ds).foldl
            (fun acc c => acc * 10 + charVal c) 0 := rfl
      rw [this, List.foldl_cons, foldl_decode_init]
      rw [charVal_digitChar _ (Nat.mod_lt _ (by omega))]
      simp only [List.length_cons]
      have hmd : n / 10 * 10 + n % 10 = n := by omega
      calc n / 10 * 10 ^ (ds.length + 1) +
          ((0 * 10 + n % 10) * 10 ^ ds.length + decodeDigits ds)
        = (n / 10 * 10 + n % 10) * 10 ^ ds.length + decodeDigits ds := by ring
        _ = n * 10 ^ ds.length + decodeDigits ds := by rw [hmd]

theorem decode_repr (n : Nat) : decodeDigits (Nat.repr n).toList = n := by
  have h : Nat.repr n = (Nat.toDigits 10 n).asString := rfl
  rw [h]
  have h2 : (Nat.toDigits 10 n).asString.toList = Nat.toDigits 10 n := rfl
  rw [h2]
  have h3 : Nat.toDigits 10 n = Nat.toDigitsCore 10 (n + 1) n [] := rfl
  rw [h3, decode_toDigitsCore (n + 1) n [] (Nat.lt_succ_self n)]
  simp [decodeDigits]

theorem natRepr_injective : Function.Injective Nat.repr := by
  intro a b hab
  have : decodeDigits (Nat.repr a).toList = decodeDigits (Nat.repr b).toList := by
    rw [hab]
  rwa [decode_repr, decode_repr] at this

theorem toString_nat_injective (a b : Nat) (h : toString a = toString b) :
    a = b :=
  natRepr_injective h

/-! ### Association-list embedding of JS `Map` / plain-object records -/

/-- `Map.prototype.set` / property assignment on a plain object: update the
(unique) existing entry in place, else append at the end.  First-match
update; states built from the empty map never hold a duplicate key. -/
def mapSet {α : Type} : List (String × α) → String → α → List (String × α)
  | [], k, v => [(k, v)]
  | p :: ps, k, v =>
    if p.1 = k then (k, v) :: ps else p :: mapSet ps k v

/-- `Map.prototype.get` / property access: first matching entry. -/
def lookupMap {α : Type} : List (String × α) → String → Option α
  | [], _ => none
  | p :: ps, k => if p.1 = k then some p.2 else lookupMap ps k

/-! ### Token differ (`findDifferences`, `src/subgraph-comparison.ts`
lines 139-215) -/

/-- The snapshot object `{name, artistName, editions, identifier}` that
`findDifferences` stores under `subgraph1` / `prod`. -/
structure TokenSnapshot where
  name : String
  artistName : String
  editions : Nat
  identifier : String
deriving DecidableEq, Repr

/-- One entry of the token difference report. -/
structure DiffRecord where
  id : String
  differences : List String
  subgraph1 : Option TokenSnapshot
  prod : Option TokenSnapshot
deriving DecidableEq, Repr

/-- Snapshot of a token. -/
def tokenSnap (t : FakeGotchiNFTToken) : TokenSnapshot :=
  { name := t.name, artistName := t.artistName,
    editions := t.editions, identifier := t.identifier }

/-- The field comparison loop of `findDifferences`: push each of
`name`, `artistName`, `editions` (in this order) whose values differ
under strict equality. -/
def diffFields (t1 t2 : FakeGotchiNFTToken) : List String :=
  (if t1.name = t2.name then [] else ["name"]) ++
  (if t1.artistName = t2.artistName then [] else ["artistName"]) ++
  (if t1.editions = t2.editions then [] else ["editions"])

/-- `new Map(data2.map(item => [item.identifier, item]))`: fold the list
into a map keyed by identifier. -/
def buildTokenMap (data : List FakeGotchiNFTToken) :
    List (String × FakeGotchiNFTToken) :=
  data.foldl (fun m t => mapSet m t.identifier t) []

/-- The body of the first loop of `findDifferences` for one left token:
`none` when no record is stored, `some r` when record `r` is stored under
`item1.identifier`. -/
def leftRecordFor (data2Map : List (String × FakeGotchiNFTToken))
    (t1 : FakeGotchiNFTToken) : Option DiffRecord :=
  match lookupMap data2Map t1.identifier with
  | none => some { id := t1.identifier, differences := ["missing_in_prod"],
                   subgraph1 := some (tokenSnap t1), prod := none }
  | some t2 =>
    let d := diffFields t1 t2
    if d = [] then none
    else some { id := t1.identifier, differences := d,
                subgraph1 := some (tokenSnap t1), prod := some (tokenSnap t2) }

/-- The body of the second loop of `findDifferences` for one right token:
a record is stored only when the identifier is absent from `data1Ids`. -/
def rightRecordFor (data1Ids : List String)
    (t2 : FakeGotchiNFTToken) : Option DiffRecord :=
  if t2.identifier ∈ data1Ids then none
  else some { id := t2.identifier, differences := ["missing_in_subgraph1"],
              subgraph1 := none, prod := some (tokenSnap t2) }

/-- `findDifferences` from `src/subgraph-comparison.ts`: both loops write
into the shared `differencesMap` keyed by identifier; the result is the
list of its values in insertion order. -/
def findDifferences (data1 data2 : List FakeGotchiNFTToken) :
    List DiffRecord :=
  let data2Map := buildTokenMap data2
  let m1 := data1.foldl (fun m t1 =>
    match leftRecordFor data2Map t1 with
    | none => m
    | some r => mapSet m r.id r) []
  let data1Ids := data1.map (fun t => t.identifier)
  let m2 := data2.foldl (fun m t2 =>
    match rightRecordFor data1Ids t2 with
    | none => m
    | some r => mapSet m r.id r) m1
  m2.map Prod.snd

/-! ### Paginated fetch loop (`fetchAllData`, `src/subgraph-comparison.ts`
lines 49-88)

The network is embedded as `oracle : Nat → List FakeGotchiNFTToken`
mapping the `skip` offset sent in the query to the batch the server
returns.  The JS `while (hasMore && allTokens.length < maxResults)` loop
terminates because every non-empty batch grows `allTokens`; the `fuel`
argument only bounds the iteration count and never changes the result
(`fetchGo_fuel_irrelevant` below), so `fetchAllData` runs the loop with
enough fuel for any reachable state. -/

/-- One unrolling of the fetch loop: constants `batchSize = 1000`,
`maxResults = 50000` as in the source.  An empty batch clears `hasMore`;
otherwise the batch is appended and `skip` advances by its length. -/
def fetchGo (oracle : Nat → List FakeGotchiNFTToken) :
    Nat → List FakeGotchiNFTToken → Nat → List FakeGotchiNFTToken
  | 0, acc, _ => acc
  | fuel + 1, acc, skip =>
    if acc.length < 50000 then
      let batch := oracle skip
      if batch.length = 0 then acc
      else fetchGo oracle fuel (acc ++ batch) (skip + batch.length)
    else acc

/-- `fetchAllData`: run the loop from the empty accumulator and offset 0. -/
def fetchAllData (oracle : Nat → List FakeGotchiNFTToken) :
    List FakeGotchiNFTToken :=
  fetchGo oracle 50001 [] 0

/-! ### Positional collection differ (`findCollectionDifferences`,
`src/subgraph-comparison.ts` lines 218-293) -/

/-- The snapshot `{name, artistName, editions}` stored by both collection
differs on the subgraph side. -/
structure CollSnapshot where
  name : String
  artistName : String
  editions : Nat
deriving DecidableEq, Repr

/-- One entry of the positional collection difference report. -/
structure PosRecord where
  id : String
  differences : List String
  subgraph1 : Option CollSnapshot
  prod : Option CollSnapshot
deriving DecidableEq, Repr

/-- Snapshot of a collection. -/
def collSnap (c : Collection) : CollSnapshot :=
  { name := c.name, artistName := c.artistName, editions := c.editions }

/-- The field comparison of the collection differs: `name`,
`artistName`, `editions` in this order. -/
def collDiffFields (c1 c2 : Collection) : List String :=
  (if c1.name = c2.name then [] else ["name"]) ++
  (if c1.artistName = c2.artistName then [] else ["artistName"]) ++
  (if c1.editions = c2.editions then [] else ["editions"])

/-- JS array indexing `arr[i]` (yielding `undefined` out of range),
embedded as structural optional indexing. -/
def listIdx {α : Type} : List α → Nat → Option α
  | [], _ => none
  | c :: _, 0 => some c
  | _ :: r, j + 1 => listIdx r j

/-- The loop body of `findCollectionDifferences` at index `i`:
`collections1[i]` and `collections2[i]` are the optional indexings
(`undefined` out of range), `id = i.toString()`.  Checks `!col1` first,
then `!col2`, else compares fields and stores a record iff any differ. -/
def posRecordFor (cs1 cs2 : List Collection) (i : Nat) : Option PosRecord :=
  match listIdx cs1 i, listIdx cs2 i with
  | none, some c2 =>
    some { id := toString i, differences := ["missing_in_subgraph1"],
           subgraph1 := none, prod := some (collSnap c2) }
  | some c1, none =>
    some { id := toString i, differences := ["missing_in_prod"],
           subgraph1 := some (collSnap c1), prod := none }
  | some c1, some c2 =>
    let d := collDiffFields c1 c2
    if d = [] then none
    else some { id := toString i, differences := d,
                subgraph1 := some (collSnap c1), prod := some (collSnap c2) }
  | none, none => none

/-- `findCollectionDifferences`: loop `i` over
`range (max collections1.length collections2.length)`; every stored key
`i.toString()` is fresh, so the `differencesMap` writes are appends and
`Array.from(map.values())` is the orderly concatenation of the stored
records. -/
def findCollectionDifferences (cs1 cs2 : List Collection) : List PosRecord :=
  (List.range (max cs1.length cs2.length)).foldl
    (fun diffs i => diffs ++ (posRecordFor cs1 cs2 i).toList) []

/-! ### Contract comparison (`src/contract-comparison.ts`) -/

/-- The metadata tuple returned by the contract's `getMetadata`; the
`uint256` fields are embedded as `Nat` (`parseInt(x.toString())` on a
`BigNumber` is the identity under this embedding). -/
structure ContractMetadata where
  name : String
  artistName : String
  editions : Nat
  identifier : Nat
deriving DecidableEq, Repr

/-- `FakeGotchiCollection` from `src/contract-comparison.ts`: a collection
as read back from `subgraph1_collections.json`. -/
structure FakeGotchiCollection where
  id : String
  name : String
  artistName : String
  editions : Nat
deriving DecidableEq, Repr

/-- The contract-side collection object built by `compareCollectionData`:
`{name, artistName, editions: parseInt(...), id}`. -/
structure ContractCollection where
  name : String
  artistName : String
  editions : Nat
  id : String
deriving DecidableEq, Repr

/-- The contract snapshot stored by `compareData`, with `editions` and
`identifier` rendered by `.toString()`. -/
structure ContractSnapshot where
  name : String
  artistName : String
  editions : String
  identifier : String
deriving DecidableEq, Repr

/-- One entry of the `compareData` report. -/
structure CompareRecord where
  id : String
  differences : List String
  subgraph : CollSnapshot
  contract : Option ContractSnapshot
deriving DecidableEq, Repr

/-- The loop body of `compareData` for one collection: a missing record
when `contractData[collection.id]` is absent, else a field-difference
record iff any of `name`, `artistName`, `editions` differ. -/
def compareRecordFor (contractData : List (String × ContractMetadata))
    (c : FakeGotchiCollection) : Option CompareRecord :=
  match lookupMap contractData c.id with
  | none =>
    some { id := c.id, differences := ["missing_in_contract"],
           subgraph := { name := c.name, artistName := c.artistName,
                         editions := c.editions },
           contract := none }
  | some m =>
    let d := (if c.name = m.name then [] else ["name"]) ++
      (if c.artistName = m.artistName then [] else ["artistName"]) ++
      (if c.editions = m.editions then [] else ["editions"])
    if d = [] then none
    else
      some { id := c.id, differences := d,
             subgraph := { name := c.name, artistName := c.artistName,
                           editions := c.editions },
             contract := some { name := m.name, artistName := m.artistName,
                                editions := toString m.editions,
                                identifier := toString m.identifier } }

/-- `compareData` from `src/contract-comparison.ts` (lines 148-210):
iterate the subgraph collections, pushing an entry per collection that is
missing from, or differs from, the contract data. -/
def compareData (contractData : List (String × ContractMetadata))
    (collectionsData : List FakeGotchiCollection) : List CompareRecord :=
  collectionsData.foldl
    (fun diffs c => diffs ++ (compareRecordFor contractData c).toList) []

/-- The accumulation of `contractData` inside `fetchContractMetadata`
(`src/contract-comparison.ts` lines 109-140): each per-collection read
either succeeds (`results c.id = some m`) or throws
(`results c.id = none`).  The store on the success path
(`contractData[collectionId] = metadata`) is commented out in the source,
so neither branch adds an entry. -/
def fetchContractData (results : String → Option ContractMetadata)
    (collectionsData : List FakeGotchiCollection) :
    List (String × ContractMetadata) :=
  collectionsData.foldl (fun acc c =>
    match results c.id with
    | some _ => acc
    | none => acc) []

/-- One entry of the `compareCollectionData` report. -/
structure KeyedRecord where
  id : String
  differences : List String
  subgraph : Option FakeGotchiCollection
  contract : Option ContractCollection
deriving DecidableEq, Repr

/-- Field comparison of `compareCollectionData`. -/
def keyedDiffFields (s : FakeGotchiCollection) (c : ContractCollection) :
    List String :=
  (if s.name = c.name then [] else ["name"]) ++
  (if s.artistName = c.artistName then [] else ["artistName"]) ++
  (if s.editions = c.editions then [] else ["editions"])

/-- The `allIds.forEach` body of `compareCollectionData` for one id:
check the subgraph side first, then the contract side, else compare the
three fields and push iff any differ. -/
def keyedRecordFor (subMap : List (String × FakeGotchiCollection))
    (conMap : List (String × ContractCollection)) (id : String) :
    Option KeyedRecord :=
  match lookupMap subMap id with
  | none =>
    some { id := id, differences := ["missing_in_subgraph"],
           subgraph := none, contract := lookupMap conMap id }
  | some sc =>
    match lookupMap conMap id with
    | none =>
      some { id := id, differences := ["missing_in_contract"],
             subgraph := some sc, contract := none }
    | some cc =>
      let d := keyedDiffFields sc cc
      if d = [] then none
      else some { id := id, differences := d,
                  subgraph := some sc, contract := some cc }

/-- The collection object `compareCollectionData` builds per entry of the
`contractData` record: `{name, artistName, editions: parseInt(...), id}`. -/
def mkContractColl (p : String × ContractMetadata) : ContractCollection :=
  { name := p.2.name, artistName := p.2.artistName,
    editions := p.2.editions, id := p.1 }

/-- The `contractCollections` record of `compareCollectionData`
(plain-object writes, insertion ordered). -/
def contractCollsOf (contractData : List (String × ContractMetadata)) :
    List (String × ContractCollection) :=
  contractData.foldl (fun r p => mapSet r p.1 (mkContractColl p)) []

/-- `Object.values(contractCollections)` of `compareCollectionData`. -/
def contractArrayOf (contractData : List (String × ContractMetadata)) :
    List ContractCollection :=
  (contractCollsOf contractData).map Prod.snd

/-- The `subgraphCollectionsMap` of `compareCollectionData`. -/
def subgraphCollMap (collectionsData : List FakeGotchiCollection) :
    List (String × FakeGotchiCollection) :=
  collectionsData.foldl (fun m c => mapSet m c.id c) []

/-- The `contractCollectionsMap` of `compareCollectionData`. -/
def contractCollMap (contractData : List (String × ContractMetadata)) :
    List (String × ContractCollection) :=
  (contractArrayOf contractData).foldl (fun m c => mapSet m c.id c) []

/-- `compareCollectionData` from `src/contract-comparison.ts` (lines
212-310): rebuild the contract data as a keyed record, build maps keyed
by collection id on both sides, take the set union of the keys (subgraph
keys first, insertion order), and emit a record per id as described in
`keyedRecordFor`. -/
def compareCollectionData (contractData : List (String × ContractMetadata))
    (collectionsData : List FakeGotchiCollection) : List KeyedRecord :=
  (firstSeen ((subgraphCollMap collectionsData).map Prod.fst ++
      (contractCollMap contractData).map Prod.fst)).foldl
    (fun diffs id =>
      diffs ++ (keyedRecordFor (subgraphCollMap collectionsData)
        (contractCollMap contractData) id).toList) []

/-! ### Lemmas about `firstSeen` -/

theorem firstSeenFrom_append {α : Type} [DecidableEq α] :
    ∀ (l1 l2 acc : List α),
      firstSeenFrom acc (l1 ++ l2) = firstSeenFrom (firstSeenFrom acc l1) l2 := by
  intro l1
  induction l1 with
  | nil => intro l2 acc; rfl
  | cons k ks ih =>
    intro l2 acc
    simp only [List.cons_append, firstSeenFrom]
    exact ih l2 _

theorem mem_firstSeenFrom {α : Type} [DecidableEq α] :
    ∀ (l acc : List α) (x : α), x ∈ firstSeenFrom acc l ↔ x ∈ acc ∨ x ∈ l := by
  intro l
  induction l with
  | nil => intro acc x; simp [firstSeenFrom]
  | cons k ks ih =>
    intro acc x
    simp only [firstSeenFrom]
    rw [ih]
    by_cases hk : k ∈ acc
    · simp only [hk, if_true, List.mem_cons]
      constructor
      · rintro (h | h)
        · exact Or.inl h
        · exact Or.inr (Or.inr h)
      · rintro (h | h | h)
        · exact Or.inl h
        · exact Or.inl (h ▸ hk)
        · exact Or.inr h
    · simp only [hk, if_false, List.mem_append, List.mem_singleton,
        List.mem_cons]
      tauto

theorem nodup_firstSeenFrom {α : Type} [DecidableEq α] :
    ∀ (l acc : List α), acc.Nodup → (firstSeenFrom acc l).Nodup := by
  intro l
  induction l with
  | nil => intro acc h; exact h
  | cons k ks ih =>
    intro acc h
    simp only [firstSeenFrom]
    apply ih
    by_cases hk : k ∈ acc
    · simpa [hk] using h
    · simp only [hk, if_false]
      simp [List.nodup_append, h, hk]

theorem mem_firstSeen {α : Type} [DecidableEq α] (l : List α) (x : α) :
    x ∈ firstSeen l ↔ x ∈ l := by
  rw [firstSeen, mem_firstSeenFrom]
  simp

theorem nodup_firstSeen {α : Type} [DecidableEq α] (l : List α) :
    (firstSeen l).Nodup :=
  nodup_firstSeenFrom l [] List.nodup_nil

theorem firstSeen_snoc {α : Type} [DecidableEq α] (l : List α) (x : α) :
    firstSeen (l ++ [x]) =
      if x ∈ firstSeen l then firstSeen l else firstSeen l ++ [x] := by
  rw [firstSeen, firstSeenFrom_append]
  rfl

/-! ### The grouping invariant -/

theorem keys_insertToken (m : List (String × Collection))
    (t : FakeGotchiNFTToken) :
    (insertToken m t).map Prod.fst =
      if collectionKey t ∈ m.map Prod.fst then m.map Prod.fst
      else m.map Prod.fst ++ [collectionKey t] := by
  induction m with
  | nil => simp [insertToken]
  | cons p ps ih =>
    by_cases hp : p.1 = collectionKey t
    · simp [insertToken, hp]
    · have hne : collectionKey t ≠ p.1 := fun h => hp h.symm
      simp only [insertToken, hp, if_false, List.map_cons, ih,
        List.mem_cons]
      by_cases hmem : collectionKey t ∈ ps.map Prod.fst
      · simp [hmem, hne]
      · simp [hmem, hne]

theorem mem_insertToken (m : List (String × Collection))
    (t : FakeGotchiNFTToken) (hnd : (m.map Prod.fst).Nodup) :
    ∀ p ∈ insertToken m t,
      (p ∈ m ∧ p.1 ≠ collectionKey t) ∨
      (∃ q, q ∈ m ∧ q.1 = collectionKey t ∧
        p = (q.1, bumpCollection q.2 t)) ∨
      (collectionKey t ∉ m.map Prod.fst ∧
        p = (collectionKey t, newCollection t)) := by
  induction m with
  | nil =>
    intro p hp
    simp only [insertToken, List.mem_singleton] at hp
    exact Or.inr (Or.inr ⟨by simp, hp⟩)
  | cons q qs ih =>
    intro p hp
    simp only [List.map_cons, List.nodup_cons] at hnd
    by_cases hq : q.1 = collectionKey t
    · simp only [insertToken, hq, if_true, List.mem_cons] at hp
      rcases hp with hp | hp
      · exact Or.inr (Or.inl ⟨q, List.mem_cons_self q qs, hq, by rw [hp, hq]⟩)
      · left
        refine ⟨List.mem_cons_of_mem q hp, ?_⟩
        intro hcontra
        exact hnd.1 (hq ▸ hcontra ▸ List.mem_map_of_mem Prod.fst hp)
    · simp only [insertToken, hq, if_false, List.mem_cons] at hp
      rcases hp with hp | hp
      · exact Or.inl ⟨hp ▸ List.mem_cons_self q qs, hp ▸ hq⟩
      · rcases ih hnd.2 p hp with h | ⟨r, hr, hrk, hpr⟩ | ⟨hnotin, hpnew⟩
        · exact Or.inl ⟨List.mem_cons_of_mem q h.1, h.2⟩
        · exact Or.inr (Or.inl ⟨r, List.mem_cons_of_mem q hr, hrk, hpr⟩)
        · refine Or.inr (Or.inr ⟨?_, hpnew⟩)
          simp only [List.map_cons, List.mem_cons]
          rintro (h | h)
          · exact hq h.symm
          · exact hnotin h

/-- Invariant of the grouping loop after consuming `processed`:
the map keys are the first-seen composite keys in order, every entry is
keyed by its own collection's composite key, and every entry's member
list and edition count are exactly the processed tokens with that key. -/
def GroupInv (processed : List FakeGotchiNFTToken)
    (m : List (String × Collection)) : Prop :=
  m.map Prod.fst = firstSeen (processed.map collectionKey) ∧
  (∀ p ∈ m, p.1 = collKey p.2) ∧
  (∀ p ∈ m, p.2.tokenIds =
    (processed.filter (fun t => collectionKey t = p.1)).map
      (fun t => t.identifier)) ∧
  (∀ p ∈ m, p.2.editions =
    (processed.filter (fun t => collectionKey t = p.1)).length) ∧
  (∀ p ∈ m, p.2.id = "")

theorem groupInv_nil : GroupInv [] [] := by
  refine ⟨rfl, ?_, ?_, ?_, ?_⟩ <;> intro p hp <;> simp at hp

theorem groupInv_step (pre : List FakeGotchiNFTToken)
    (t : FakeGotchiNFTToken) (m : List (String × Collection))
    (h : GroupInv pre m) : GroupInv (pre ++ [t]) (insertToken m t) := by
  obtain ⟨hkeys, hself, htoks, heds, hid⟩ := h
  have hnd : (m.map Prod.fst).Nodup := by
    rw [hkeys]; exact nodup_firstSeen _
  refine ⟨?_, ?_, ?_, ?_, ?_⟩
  · rw [keys_insertToken, hkeys, List.map_append, List.map_singleton,
      firstSeen_snoc]
  · intro p hp
    rcases mem_insertToken m t hnd p hp with h1 | ⟨q, hq, hqk, hpq⟩ | ⟨_, hpn⟩
    · exact hself p h1.1
    · rw [hpq]
      have : collKey (bumpCollection q.2 t) = collKey q.2 := by
        simp [collKey, bumpCollection]
      rw [this]
      exact hself q hq
    · rw [hpn]
      simp [collKey, newCollection, collectionKey]
  · intro p hp
    rcases mem_insertToken m t hnd p hp with h1 | ⟨q, hq, hqk, hpq⟩ | ⟨hni, hpn⟩
    · rw [List.filter_append]
      have : [t].filter (fun x => collectionKey x = p.1) = [] := by
        simp only [List.filter_singleton]
        have : ¬ (collectionKey t = p.1) := fun hc => h1.2 hc.symm
        simp [this]
      rw [this, List.append_nil]
      exact htoks p h1.1
    · rw [hpq]
      simp only [bumpCollection]
      rw [List.filter_append]
      have : [t].filter (fun x => collectionKey x = q.1) = [t] := by
        simp only [List.filter_singleton]
        simp [hqk]
      rw [this, List.map_append, List.map_singleton]
      rw [htoks q hq]
    · rw [hpn]
      simp only [newCollection]
      rw [List.filter_append]
      have h0 : pre.filter (fun x => collectionKey x = collectionKey t) = [] := by
        rw [List.filter_eq_nil_iff]
        intro a ha hc
        apply hni
        rw [hkeys, mem_firstSeen]
        simp only [decide_eq_true_eq] at hc
        exact hc ▸ List.mem_map_of_mem collectionKey ha
      have h1 : [t].filter (fun x => collectionKey x = collectionKey t) = [t] := by
        simp [List.filter_singleton]
      rw [h0, h1]
      simp
  · intro p hp
    rcases mem_insertToken m t hnd p hp with h1 | ⟨q, hq, hqk, hpq⟩ | ⟨hni, hpn⟩
    · rw [List.filter_append]
      have : [t].filter (fun x => collectionKey x = p.1) = [] := by
        simp only [List.filter_singleton]
        have : ¬ (collectionKey t = p.1) := fun hc => h1.2 hc.symm
        simp [this]
      rw [this, List.append_nil]
      exact heds p h1.1
    · rw [hpq]
      simp only [bumpCollection]
      rw [List.filter_append]
      have : [t].filter (fun x => collectionKey x = q.1) = [t] := by
        simp only [List.filter_singleton]
        simp [hqk]
      rw [this, List.length_append, List.length_singleton]
      rw [heds q hq]
    · rw [hpn]
      simp only [newCollection]
      rw [List.filter_append]
      have h0 : pre.filter (fun x => collectionKey x = collectionKey t) = [] := by
        rw [List.filter_eq_nil_iff]
        intro a ha hc
        apply hni
        rw [hkeys, mem_firstSeen]
        simp only [decide_eq_true_eq] at hc
        exact hc ▸ List.mem_map_of_mem collectionKey ha
      have h1 : [t].filter (fun x => collectionKey x = collectionKey t) = [t] := by
        simp [List.filter_singleton]
      rw [h0, h1]
      simp
  · intro p hp
    rcases mem_insertToken m t hnd p hp with h1 | ⟨q, hq, hqk, hpq⟩ | ⟨hni, hpn⟩
    · exact hid p h1.1
    · rw [hpq]
      simp only [bumpCollection]
      exact hid q hq
    · rw [hpn]
      simp [newCollection]

theorem groupInv_fold :
    ∀ (ts pre : List FakeGotchiNFTToken) (m : List (String × Collection)),
      GroupInv pre m → GroupInv (pre ++ ts) (ts.foldl insertToken m) := by
  intro ts
  induction ts with
  | nil => intro pre m h; simpa using h
  | cons t ts ih =>
    intro pre m h
    have h1 := groupInv_step pre t m h
    have h2 := ih (pre ++ [t]) (insertToken m t) h1
    simpa using h2

theorem groupAssoc_inv (ts : List FakeGotchiNFTToken) :
    GroupInv ts (groupAssoc ts) := by
  have := groupInv_fold ts [] [] groupInv_nil
  simpa [groupAssoc] using this

/-! ### Lemmas about `assignIds` and `groupIntoCollections` -/

theorem length_assignIds : ∀ (n : Nat) (l : List Collection),
    (assignIds n l).length = l.length := by
  intro n l
  induction l generalizing n with
  | nil => rfl
  | cons c cs ih => simp [assignIds, ih]

theorem getElem?_assignIds : ∀ (l : List Collection) (n i : Nat),
    (assignIds n l)[i]? =
      (l[i]?).map (fun c => { c with id := toString (n + i) }) := by
  intro l
  induction l with
  | nil => intro n i; simp [assignIds]
  | cons c cs ih =>
    intro n i
    cases i with
    | zero => simp [assignIds]
    | succ j =>
      simp only [assignIds, List.getElem?_cons_succ, ih (n + 1) j]
      have : n + 1 + j = n + (j + 1) := by omega
      rw [this]

theorem mem_assignIds : ∀ (l : List Collection) (n : Nat) (c : Collection),
    c ∈ assignIds n l → ∃ c0 ∈ l, c.name = c0.name ∧
      c.artistName = c0.artistName ∧ c.editions = c0.editions ∧
      c.tokenIds = c0.tokenIds := by
  intro l
  induction l with
  | nil => intro n c h; simp [assignIds] at h
  | cons d ds ih =>
    intro n c h
    simp only [assignIds, List.mem_cons] at h
    rcases h with h | h
    · exact ⟨d, List.mem_cons_self d ds, by rw [h], by rw [h], by rw [h],
        by rw [h]⟩
    · obtain ⟨c0, hc0, hs⟩ := ih (n + 1) c h
      exact ⟨c0, List.mem_cons_of_mem d hc0, hs⟩

theorem mem_assignIds_of_mem : ∀ (l : List Collection) (n : Nat)
    (c0 : Collection), c0 ∈ l → ∃ c ∈ assignIds n l, c.name = c0.name ∧
      c.artistName = c0.artistName ∧ c.editions = c0.editions ∧
      c.tokenIds = c0.tokenIds := by
  intro l
  induction l with
  | nil => intro n c0 h; simp at h
  | cons d ds ih =>
    intro n c0 h
    simp only [List.mem_cons] at h
    rcases h with h | h
    · refine ⟨{ d with id := toString n }, List.mem_cons_self _ _, ?_⟩
      rw [h]
      exact ⟨rfl, rfl, rfl, rfl⟩
    · obtain ⟨c, hc, hs⟩ := ih (n + 1) c0 h
      exact ⟨c, List.mem_cons_of_mem _ hc, hs⟩

theorem map_collKey_assignIds : ∀ (l : List Collection) (n : Nat),
    (assignIds n l).map collKey = l.map collKey := by
  intro l
  induction l with
  | nil => intro n; rfl
  | cons c cs ih =>
    intro n
    simp only [assignIds, List.map_cons, ih]
    rfl

theorem map_id_assignIds : ∀ (l : List Collection) (n : Nat),
    (assignIds n l).map (fun c => c.id) =
      (List.range l.length).map (fun i => toString (n + i)) := by
  intro l
  induction l with
  | nil => intro n; rfl
  | cons c cs ih =>
    intro n
    simp only [assignIds, List.map_cons, List.length_cons,
      List.range_succ_eq_map, ih, List.map_map]
    congr 1
    apply List.map_congr_left
    intro i _
    simp only [Function.comp_apply]
    have : n + 1 + i = n + (i + 1) := by omega
    rw [this]

theorem group_keys (ts : List FakeGotchiNFTToken) :
    (groupIntoCollections ts).map collKey =
      firstSeen (ts.map collectionKey) := by
  obtain ⟨hkeys, hself, _, _, _⟩ := groupAssoc_inv ts
  rw [groupIntoCollections, map_collKey_assignIds, List.map_map]
  rw [← hkeys]
  apply List.map_congr_left
  intro p hp
  exact (hself p hp).symm

theorem group_keys_nodup (ts : List FakeGotchiNFTToken) :
    ((groupIntoCollections ts).map collKey).Nodup := by
  rw [group_keys]
  exact nodup_firstSeen _

theorem group_tokenIds (ts : List FakeGotchiNFTToken) :
    ∀ c ∈ groupIntoCollections ts, c.tokenIds =
      (ts.filter (fun t => collectionKey t = collKey c)).map
        (fun t => t.identifier) := by
  obtain ⟨hkeys, hself, htoks, _, _⟩ := groupAssoc_inv ts
  intro c hc
  obtain ⟨c0, hc0, hn, ha, he, hti⟩ := mem_assignIds _ _ c hc
  obtain ⟨p, hp, hpc⟩ := List.mem_map.mp hc0
  have hkey : collKey c = p.1 := by
    rw [hself p hp, hpc]
    simp [collKey, hn, ha]
  rw [hti, ← hpc, htoks p hp, hkey]

theorem group_editions (ts : List FakeGotchiNFTToken) :
    ∀ c ∈ groupIntoCollections ts, c.editions =
      (ts.filter (fun t => collectionKey t = collKey c)).length := by
  obtain ⟨hkeys, hself, _, heds, _⟩ := groupAssoc_inv ts
  intro c hc
  obtain ⟨c0, hc0, hn, ha, he, hti⟩ := mem_assignIds _ _ c hc
  obtain ⟨p, hp, hpc⟩ := List.mem_map.mp hc0
  have hkey : collKey c = p.1 := by
    rw [hself p hp, hpc]
    simp [collKey, hn, ha]
  rw [he, ← hpc, heds p hp, hkey]

theorem group_cover (ts : List FakeGotchiNFTToken) :
    ∀ t ∈ ts, ∃ c ∈ groupIntoCollections ts,
      collKey c = collectionKey t := by
  intro t ht
  have hmem : collectionKey t ∈ firstSeen (ts.map collectionKey) := by
    rw [mem_firstSeen]
    exact List.mem_map_of_mem collectionKey ht
  rw [← group_keys] at hmem
  obtain ⟨c, hc, hck⟩ := List.mem_map.mp hmem
  exact ⟨c, hc, hck⟩

theorem group_ids (ts : List FakeGotchiNFTToken) :
    (groupIntoCollections ts).map (fun c => c.id) =
      (List.range (groupIntoCollections ts).length).map
        (fun i => toString (i + 1)) := by
  rw [groupIntoCollections, map_id_assignIds, length_assignIds]
  apply List.map_congr_left
  intro i _
  have : 1 + i = i + 1 := by omega
  rw [this]

theorem group_getElem? (ts : List FakeGotchiNFTToken) (i : Nat) :
    (groupIntoCollections ts)[i]? =
      (((groupAssoc ts).map Prod.snd)[i]?).map
        (fun c => { c with id := toString (i + 1) }) := by
  rw [groupIntoCollections, getElem?_assignIds]
  have : 1 + i = i + 1 := by omega
  rw [this]

/-! ### Counting lemmas for the grouping guarantees -/

theorem sum_indicator (keys : List String) (x : String) (hnd : keys.Nodup)
    (hx : x ∈ keys) :
    (keys.map (fun k => if x = k then (1 : Nat) else 0)).sum = 1 := by
  induction keys with
  | nil => simp at hx
  | cons k ks ih =>
    simp only [List.map_cons, List.sum_cons]
    simp only [List.nodup_cons] at hnd
    rcases List.mem_cons.mp hx with h | h
    · subst h
      simp only [if_pos rfl]
      have hz : (ks.map (fun k2 => if x = k2 then (1 : Nat) else 0)).sum = 0 := by
        apply List.sum_eq_zero
        intro n hn
        obtain ⟨k2, hk2, hk2e⟩ := List.mem_map.mp hn
        have hne : x ≠ k2 := fun he => hnd.1 (he ▸ hk2)
        rw [if_neg hne] at hk2e
        exact hk2e.symm
      rw [hz]
      simp
    · have hxk : x ≠ k := by
        intro he
        exact hnd.1 (he ▸ h)
      rw [if_neg hxk, ih hnd.2 h]

theorem length_eq_sum_filter {α : Type} (f : α → String) :
    ∀ (l : List α) (keys : List String), keys.Nodup →
      (∀ a ∈ l, f a ∈ keys) →
      (keys.map (fun k => (l.filter (fun a => f a = k)).length)).sum =
        l.length := by
  intro l
  induction l with
  | nil =>
    intro keys _ _
    simp only [List.filter_nil, List.length_nil]
    apply List.sum_eq_zero
    intro n hn
    obtain ⟨k, _, hke⟩ := List.mem_map.mp hn
    omega
  | cons a l ih =>
    intro keys hnd hcov
    have hmem : f a ∈ keys := hcov a (List.mem_cons_self a l)
    have hcov2 : ∀ b ∈ l, f b ∈ keys :=
      fun b hb => hcov b (List.mem_cons_of_mem a hb)
    have hsplit : ∀ k : String, (((a :: l).filter (fun x => f x = k)).length) =
        (if f a = k then 1 else 0) + (l.filter (fun x => f x = k)).length := by
      intro k
      by_cases h : f a = k
      · simp [List.filter_cons, h, Nat.add_comm]
      · simp [List.filter_cons, h]
    have hmap : keys.map (fun k => (((a :: l).filter (fun x => f x = k)).length)) =
        keys.map (fun k => (if f a = k then 1 else 0) +
          (l.filter (fun x => f x = k)).length) :=
      List.map_congr_left (fun k _ => hsplit k)
    rw [hmap, List.sum_map_add, sum_indicator keys (f a) hnd hmem,
      ih keys hnd hcov2]
    simp [Nat.add_comm]

/-! ### Claim C1 -/

/-- C1: the claim states that two tokens share a collection iff their
(name, artistName) pairs are exactly equal.  This is false: the grouping
key is the string `name + "-" + artistName`, and distinct pairs can
collide.  Concretely, the tokens (name `a-b`, artist `c`) and (name `a`,
artist `b-c`) have different pairs yet are grouped into one single
collection holding both identifiers. -/
theorem claim1_counterexample :
    groupIntoCollections
        [{ id := "0", identifier := "1", name := "a-b", artistName := "c",
           editions := 1 },
         { id := "0", identifier := "2", name := "a", artistName := "b-c",
           editions := 1 }] =
      [{ id := "1", name := "a-b", artistName := "c", editions := 2,
         tokenIds := ["1", "2"] }] ∧
    ¬ (("a-b" : String) = "a" ∧ ("c" : String) = "b-c") := by
  decide

/-- C1 (amended): two tokens of the input are placed in the same output
collection if and only if their composite grouping keys
`name ++ "-" ++ artistName` are equal (case-sensitive, no normalization);
distinct composite keys never share a collection.  (The original claim
used the pair (name, artistName); `claim1_counterexample` shows the dash
separator makes distinct pairs with equal composite keys collide.) -/
theorem claim1_grouping_key (ts : List FakeGotchiNFTToken)
    (t1 t2 : FakeGotchiNFTToken) (h1 : t1 ∈ ts) (h2 : t2 ∈ ts) :
    (∃ c ∈ groupIntoCollections ts,
      collKey c = collectionKey t1 ∧ collKey c = collectionKey t2 ∧
      t1.identifier ∈ c.tokenIds ∧ t2.identifier ∈ c.tokenIds) ↔
    collectionKey t1 = collectionKey t2 := by
  constructor
  · rintro ⟨c, _, e1, e2, _, _⟩
    exact e1.symm.trans e2
  · intro he
    obtain ⟨c, hc, hck⟩ := group_cover ts t1 h1
    have hmem : ∀ t ∈ ts, collectionKey t = collKey c →
        t.identifier ∈ c.tokenIds := by
      intro t ht hkt
      rw [group_tokenIds ts c hc]
      refine List.mem_map_of_mem (fun x => x.identifier)
        (List.mem_filter.mpr ⟨ht, ?_⟩)
      show decide (collectionKey t = collKey c) = true
      exact decide_eq_true hkt
    exact ⟨c, hc, hck, hck.trans he, hmem t1 h1 hck.symm,
      hmem t2 h2 (he.symm.trans hck.symm)⟩

/-- Witness for `claim1_grouping_key` at a concrete input: two tokens of
the same name and artist are grouped together. -/
theorem claim1_witness :
    (∃ c ∈ groupIntoCollections
        [{ id := "0", identifier := "1", name := "x", artistName := "y",
           editions := 1 },
         { id := "0", identifier := "2", name := "x", artistName := "y",
           editions := 1 }],
      collKey c = collectionKey
        { id := "0", identifier := "1", name := "x", artistName := "y",
          editions := 1 } ∧
      collKey c = collectionKey
        { id := "0", identifier := "2", name := "x", artistName := "y",
          editions := 1 } ∧
      ("1" : String) ∈ c.tokenIds ∧ ("2" : String) ∈ c.tokenIds) ↔
    collectionKey
        { id := "0", identifier := "1", name := "x", artistName := "y",
          editions := 1 } =
      collectionKey
        { id := "0", identifier := "2", name := "x", artistName := "y",
          editions := 1 } :=
  claim1_grouping_key _ _ _ (by decide) (by decide)

/-! ### Claims C2, C8, C9 -/

/-- C2: every input token is placed in exactly one output collection
(the unique collection carrying its composite key, whose member list
holds its identifier), the edition counts of the output collections sum
to the input length, and the empty input yields the empty output. -/
theorem claim2_partition (ts : List FakeGotchiNFTToken) :
    ((groupIntoCollections ts).map (fun c => c.editions)).sum = ts.length ∧
    (∀ t ∈ ts, ∃! c, c ∈ groupIntoCollections ts ∧
      collKey c = collectionKey t ∧ t.identifier ∈ c.tokenIds) ∧
    groupIntoCollections [] = [] := by
  refine ⟨?_, ?_, rfl⟩
  · have h1 : (groupIntoCollections ts).map (fun c => c.editions) =
        (groupIntoCollections ts).map (fun c =>
          (ts.filter (fun t => collectionKey t = collKey c)).length) :=
      List.map_congr_left (fun c hc => group_editions ts c hc)
    have h2 : (groupIntoCollections ts).map (fun c =>
        (ts.filter (fun t => collectionKey t = collKey c)).length) =
        ((groupIntoCollections ts).map collKey).map (fun k =>
          (ts.filter (fun t => collectionKey t = k)).length) := by
      rw [List.map_map]
      rfl
    rw [h1, h2, group_keys]
    apply length_eq_sum_filter collectionKey ts _ (nodup_firstSeen _)
    intro t ht
    rw [mem_firstSeen]
    exact List.mem_map_of_mem collectionKey ht
  · intro t ht
    obtain ⟨c, hc, hck⟩ := group_cover ts t ht
    have hmem : t.identifier ∈ c.tokenIds := by
      rw [group_tokenIds ts c hc]
      refine List.mem_map_of_mem (fun x => x.identifier)
        (List.mem_filter.mpr ⟨ht, ?_⟩)
      show decide (collectionKey t = collKey c) = true
      exact decide_eq_true hck.symm
    refine ⟨c, ⟨hc, hck, hmem⟩, ?_⟩
    rintro c2 ⟨hc2, hck2, _⟩
    exact List.inj_on_of_nodup_map (group_keys_nodup ts) hc2 hc
      (hck2.trans hck.symm)

/-- Witness for `claim2_partition` at a concrete input. -/
theorem claim2_witness :
    ∃! c, c ∈ groupIntoCollections
        [{ id := "0", identifier := "7", name := "Cat", artistName := "Bob",
           editions := 2 }] ∧
      collKey c = collectionKey
        { id := "0", identifier := "7", name := "Cat", artistName := "Bob",
          editions := 2 } ∧
      ("7" : String) ∈ c.tokenIds :=
  (claim2_partition _).2.1 _ (by decide)

/-- C8: the claim states that each collection's id is its 1-based
position in first-seen order of its (name, artistName) pair.  The id is
actually the 1-based position in first-seen order of the composite key
`name ++ "-" ++ artistName`, and the two orders differ under key
collisions: in the input below the pair (x, y) is the third distinct
pair to appear (after (a, b-c) and (a-b, c)), yet its collection gets id
"2" (not "3") because the first two pairs collide on the composite key
`a-b-c`. -/
theorem claim8_counterexample :
    (groupIntoCollections
        [{ id := "0", identifier := "1", name := "a", artistName := "b-c",
           editions := 1 },
         { id := "0", identifier := "2", name := "a-b", artistName := "c",
           editions := 1 },
         { id := "0", identifier := "3", name := "x", artistName := "y",
           editions := 1 }])[1]? =
      some { id := "2", name := "x", artistName := "y", editions := 1,
             tokenIds := ["3"] } ∧
    firstSeen
        (([{ id := "0", identifier := "1", name := "a", artistName := "b-c",
             editions := 1 },
           { id := "0", identifier := "2", name := "a-b", artistName := "c",
             editions := 1 },
           { id := "0", identifier := "3", name := "x", artistName := "y",
             editions := 1 }] : List FakeGotchiNFTToken).map
          (fun t => (t.name, t.artistName))) =
      [("a", "b-c"), ("a-b", "c"), ("x", "y")] ∧
    ("2" : String) ≠ "3" := by
  decide

/-- C8 (amended): each output collection's `collectionId` is the decimal
rendering of its 1-based position, and the collections appear in
first-seen order of the composite key `name ++ "-" ++ artistName` (not of
the (name, artistName) pair, see `claim8_counterexample`); so the id is
the 1-based first-seen position of the collection's composite key.
Determinism of the assignment is immediate: `groupIntoCollections` is a
pure function of the input list, so the same input in the same order
yields the same ids. -/
theorem claim8_ids (ts : List FakeGotchiNFTToken) :
    (groupIntoCollections ts).map (fun c => c.id) =
      (List.range (groupIntoCollections ts).length).map
        (fun i => toString (i + 1)) ∧
    (groupIntoCollections ts).map collKey =
      firstSeen (ts.map collectionKey) :=
  ⟨group_ids ts, group_keys ts⟩

/-- C9: every output collection satisfies
`editions = tokenIds.length`, and the same equality holds for every
in-progress collection after any number of tokens has been consumed
(the grouping state after `n` tokens is `groupAssoc (ts.take n)`). -/
theorem claim9_editions_invariant (ts : List FakeGotchiNFTToken) :
    (∀ c ∈ groupIntoCollections ts, c.editions = c.tokenIds.length) ∧
    (∀ n : Nat, ∀ p ∈ groupAssoc (ts.take n),
      p.2.editions = p.2.tokenIds.length) := by
  constructor
  · intro c hc
    rw [group_editions ts c hc, group_tokenIds ts c hc, List.length_map]
  · intro n p hp
    obtain ⟨_, _, htoks, heds, _⟩ := groupAssoc_inv (ts.take n)
    rw [heds p hp, htoks p hp, List.length_map]

/-- Witness for `claim9_editions_invariant` at a concrete input. -/
theorem claim9_witness :
    ({ id := "1", name := "Cat", artistName := "Bob", editions := 1,
       tokenIds := ["5"] } : Collection).editions =
      (["5"] : List String).length :=
  (claim9_editions_invariant
      [{ id := "0", identifier := "5", name := "Cat", artistName := "Bob",
         editions := 3 }]).1 _ (by decide)

/-! ### Association-list lemmas -/

theorem lookupMap_mapSet_self {ρ : Type} :
    ∀ (m : List (String × ρ)) (k : String) (v : ρ),
      lookupMap (mapSet m k v) k = some v := by
  intro m
  induction m with
  | nil => intro k v; simp [mapSet, lookupMap]
  | cons p ps ih =>
    intro k v
    by_cases hp : p.1 = k
    · simp [mapSet, hp, lookupMap]
    · simp [mapSet, hp, lookupMap, ih]

theorem lookupMap_mapSet_ne {ρ : Type} :
    ∀ (m : List (String × ρ)) (k k2 : String) (v : ρ), k2 ≠ k →
      lookupMap (mapSet m k v) k2 = lookupMap m k2 := by
  intro m
  induction m with
  | nil =>
    intro k k2 v hne
    have : ¬ (k = k2) := fun h => hne h.symm
    simp [mapSet, lookupMap, this]
  | cons p ps ih =>
    intro k k2 v hne
    by_cases hp : p.1 = k
    · have h1 : ¬ (k = k2) := fun h => hne h.symm
      have h2 : ¬ (p.1 = k2) := fun h => hne (hp ▸ h).symm
      simp [mapSet, hp, lookupMap, h1, h2]
    · have hstep : mapSet (p :: ps) k v = p :: mapSet ps k v := by
        simp [mapSet, hp]
      rw [hstep]
      by_cases hq : p.1 = k2
      · simp [lookupMap, hq]
      · simp [lookupMap, hq, ih _ _ v hne]

theorem mapSet_of_lookup_none {ρ : Type} :
    ∀ (m : List (String × ρ)) (k : String) (v : ρ),
      lookupMap m k = none → mapSet m k v = m ++ [(k, v)] := by
  intro m
  induction m with
  | nil => intro k v _; rfl
  | cons p ps ih =>
    intro k v h
    simp only [lookupMap] at h
    by_cases hp : p.1 = k
    · simp [hp] at h
    · simp only [hp, if_false] at h
      simp [mapSet, hp, ih _ v h]

theorem lookupMap_append {ρ : Type} :
    ∀ (m1 m2 : List (String × ρ)) (k : String),
      lookupMap (m1 ++ m2) k =
        match lookupMap m1 k with
        | some v => some v
        | none => lookupMap m2 k := by
  intro m1
  induction m1 with
  | nil => intro m2 k; rfl
  | cons p ps ih =>
    intro m2 k
    by_cases hp : p.1 = k
    · simp [lookupMap, hp]
    · simp [lookupMap, hp, ih]

/-- A fold that inserts a fresh key per accepted element is an append of
the accepted records in order.  The fold body `g` is characterized by its
two cases so callers can instantiate it with their own loop bodies. -/
theorem foldl_mapSet_fresh {α ρ : Type}
    (g : List (String × ρ) → α → List (String × ρ)) (f : α → Option ρ)
    (key : α → String) (rid : ρ → String)
    (hid : ∀ a r, f a = some r → rid r = key a)
    (hgnone : ∀ acc a, f a = none → g acc a = acc)
    (hgsome : ∀ acc a r, f a = some r → g acc a = mapSet acc (rid r) r) :
    ∀ (l : List α) (m : List (String × ρ)),
      (l.map key).Nodup →
      (∀ a ∈ l, ∀ r, f a = some r → lookupMap m (key a) = none) →
      l.foldl g m = m ++ (l.filterMap f).map (fun r => (rid r, r)) := by
  intro l
  induction l with
  | nil => intro m _ _; simp
  | cons a l ih =>
    intro m hnd hfresh
    simp only [List.map_cons, List.nodup_cons] at hnd
    cases hfa : f a with
    | none =>
      simp only [List.foldl_cons]
      rw [hgnone m a hfa]
      rw [ih m hnd.2
        (fun b hb r hr => hfresh b (List.mem_cons_of_mem a hb) r hr)]
      rw [List.filterMap_cons_none hfa]
    | some r =>
      simp only [List.foldl_cons]
      rw [hgsome m a r hfa]
      have hkey : rid r = key a := hid a r hfa
      have hnone : lookupMap m (key a) = none :=
        hfresh a (List.mem_cons_self a l) r hfa
      rw [hkey, mapSet_of_lookup_none m (key a) r hnone]
      have hfresh2 : ∀ b ∈ l, ∀ r2, f b = some r2 →
          lookupMap (m ++ [(key a, r)]) (key b) = none := by
        intro b hb r2 hr2
        rw [lookupMap_append]
        rw [hfresh b (List.mem_cons_of_mem a hb) r2 hr2]
        have hne : ¬ (key a = key b) := by
          intro he
          exact hnd.1 (he ▸ List.mem_map_of_mem key hb)
        simp [lookupMap, hne]
      rw [ih (m ++ [(key a, r)]) hnd.2 hfresh2]
      rw [List.filterMap_cons_some hfa]
      simp [hkey, List.append_assoc]

/-- Folding `mapSet` over elements keyed by `key` leaves foreign keys
untouched. -/
theorem lookup_fold_build_untouched {α ρ : Type} (key : α → String)
    (val : α → ρ) :
    ∀ (l : List α) (m : List (String × ρ)) (k : String),
      k ∉ l.map key →
      lookupMap (l.foldl (fun m x => mapSet m (key x) (val x)) m) k =
        lookupMap m k := by
  intro l
  induction l with
  | nil => intro m k _; rfl
  | cons a l ih =>
    intro m k hk
    simp only [List.map_cons, List.mem_cons] at hk
    push_neg at hk
    simp only [List.foldl_cons]
    rw [ih _ k hk.2, lookupMap_mapSet_ne m (key a) k (val a) hk.1]

/-- Folding `mapSet` over elements with pairwise distinct keys makes
every element retrievable by its key. -/
theorem lookup_fold_build_mem {α ρ : Type} (key : α → String)
    (val : α → ρ) :
    ∀ (l : List α) (m : List (String × ρ)) (a : α), a ∈ l →
      (l.map key).Nodup →
      lookupMap (l.foldl (fun m x => mapSet m (key x) (val x)) m) (key a) =
        some (val a) := by
  intro l
  induction l with
  | nil => intro m a ha; simp at ha
  | cons b l ih =>
    intro m a ha hnd
    simp only [List.map_cons, List.nodup_cons] at hnd
    simp only [List.foldl_cons]
    rcases List.mem_cons.mp ha with h | h
    · subst h
      rw [lookup_fold_build_untouched key val l _ (key a) hnd.1]
      exact lookupMap_mapSet_self m (key a) (val a)
    · exact ih _ a h hnd.2

/-- In a list of records paired with their own ids, a foreign key looks
up to nothing. -/
theorem lookup_pairs_none {ρ : Type} (rid : ρ → String) :
    ∀ (L : List ρ) (k : String), k ∉ L.map rid →
      lookupMap (L.map (fun r => (rid r, r))) k = none := by
  intro L
  induction L with
  | nil => intro k _; rfl
  | cons r L ih =>
    intro k hk
    simp only [List.map_cons, List.mem_cons] at hk
    push_neg at hk
    have : ¬ (rid r = k) := fun h => hk.1 h.symm
    simp only [List.map_cons, lookupMap, this, if_false]
    exact ih k hk.2

/-- Filtering a filterMap by a key matched by no source element yields
nothing. -/
theorem filter_filterMap_nil {α ρ : Type} (key : α → String)
    (f : α → Option ρ) (rid : ρ → String)
    (hid : ∀ a r, f a = some r → rid r = key a) :
    ∀ (l : List α) (k : String), (∀ x ∈ l, key x ≠ k) →
      (l.filterMap f).filter (fun r => rid r = k) = [] := by
  intro l
  induction l with
  | nil => intro k _; rfl
  | cons b l ih =>
    intro k hk
    cases hfb : f b with
    | none =>
      rw [List.filterMap_cons_none hfb]
      exact ih k (fun x hx => hk x (List.mem_cons_of_mem b hx))
    | some r =>
      rw [List.filterMap_cons_some hfb]
      have hne : ¬ (rid r = k) := by
        rw [hid b r hfb]
        exact hk b (List.mem_cons_self b l)
      have hd : (decide (rid r = k)) = false := by simp [hne]
      rw [List.filter_cons, hd, if_neg Bool.false_ne_true]
      exact ih k (fun x hx => hk x (List.mem_cons_of_mem b hx))

/-- Filtering a filterMap by the key of a source element (keys pairwise
distinct) yields exactly that element's record, if any. -/
theorem filter_filterMap_self {α ρ : Type} (key : α → String)
    (f : α → Option ρ) (rid : ρ → String)
    (hid : ∀ a r, f a = some r → rid r = key a) :
    ∀ (l : List α), (l.map key).Nodup → ∀ a ∈ l,
      (l.filterMap f).filter (fun r => rid r = key a) = (f a).toList := by
  intro l
  induction l with
  | nil => intro _ a ha; simp at ha
  | cons b l ih =>
    intro hnd a ha
    simp only [List.map_cons, List.nodup_cons] at hnd
    rcases List.mem_cons.mp ha with h | h
    · subst h
      have htail : (l.filterMap f).filter (fun r => rid r = key a) = [] := by
        apply filter_filterMap_nil key f rid hid
        intro x hx he
        exact hnd.1 (he ▸ List.mem_map_of_mem key hx)
      cases hfa : f a with
      | none =>
        rw [List.filterMap_cons_none hfa, htail]
        rfl
      | some r =>
        rw [List.filterMap_cons_some hfa, List.filter_cons]
        have hd : (decide (rid r = key a)) = true := by
          simp [hid a r hfa]
        rw [hd, if_pos rfl, htail]
        rfl
    · have hkne : key b ≠ key a := by
        intro he
        exact hnd.1 (he ▸ List.mem_map_of_mem key h)
      cases hfb : f b with
      | none =>
        rw [List.filterMap_cons_none hfb]
        exact ih hnd.2 a h
      | some r =>
        rw [List.filterMap_cons_some hfb, List.filter_cons]
        have hne : ¬ (rid r = key a) := by
          rw [hid b r hfb]
          exact hkne
        have hd : (decide (rid r = key a)) = false := by simp [hne]
        rw [hd, if_neg Bool.false_ne_true]
        exact ih hnd.2 a h

/-! ### Claim C3: the token differ on one-sided tokens -/

theorem leftRecordFor_id (M : List (String × FakeGotchiNFTToken))
    (t : FakeGotchiNFTToken) (r : DiffRecord)
    (h : leftRecordFor M t = some r) : r.id = t.identifier := by
  unfold leftRecordFor at h
  cases hl : lookupMap M t.identifier with
  | none =>
    rw [hl] at h
    simp only [Option.some_inj] at h
    rw [← h]
  | some t2 =>
    rw [hl] at h
    by_cases hd : diffFields t t2 = []
    · simp [hd] at h
    · simp only [hd, if_false, Option.some_inj] at h
      rw [← h]

theorem rightRecordFor_id (ids : List String) (t : FakeGotchiNFTToken)
    (r : DiffRecord) (h : rightRecordFor ids t = some r) :
    r.id = t.identifier := by
  unfold rightRecordFor at h
  by_cases hm : t.identifier ∈ ids
  · simp [hm] at h
  · simp only [hm, if_false, Option.some_inj] at h
    rw [← h]

theorem lookup_buildTokenMap_none (data : List FakeGotchiNFTToken)
    (k : String) (h : k ∉ data.map (fun t => t.identifier)) :
    lookupMap (buildTokenMap data) k = none := by
  have h0 := lookup_fold_build_untouched
    (fun t : FakeGotchiNFTToken => t.identifier)
    (fun t : FakeGotchiNFTToken => t) data [] k h
  simpa [buildTokenMap, lookupMap] using h0

/-- When both identifier columns are duplicate-free, `findDifferences` is
the list of left-loop records followed by the right-only records. -/
theorem findDifferences_eq (data1 data2 : List FakeGotchiNFTToken)
    (h1 : (data1.map (fun t => t.identifier)).Nodup)
    (h2 : (data2.map (fun t => t.identifier)).Nodup) :
    findDifferences data1 data2 =
      data1.filterMap (leftRecordFor (buildTokenMap data2)) ++
      data2.filterMap
        (rightRecordFor (data1.map (fun t => t.identifier))) := by
  have hdef : findDifferences data1 data2 =
      (data2.foldl (fun m t2 =>
        match rightRecordFor (data1.map (fun t => t.identifier)) t2 with
        | none => m
        | some r => mapSet m r.id r)
        (data1.foldl (fun m t1 =>
          match leftRecordFor (buildTokenMap data2) t1 with
          | none => m
          | some r => mapSet m r.id r) [])).map Prod.snd := rfl
  have hm1 := foldl_mapSet_fresh
    (fun m t1 =>
      match leftRecordFor (buildTokenMap data2) t1 with
      | none => m
      | some r => mapSet m r.id r)
    (leftRecordFor (buildTokenMap data2))
    (fun t => t.identifier) (fun r => r.id)
    (fun a r h => leftRecordFor_id _ a r h)
    (fun acc a h => by simp only [h])
    (fun acc a r h => by simp only [h]) data1 [] h1
    (fun a _ r _ => rfl)
  have hfresh2 : ∀ b ∈ data2, ∀ r2,
      rightRecordFor (data1.map (fun t => t.identifier)) b = some r2 →
      lookupMap
        (([] : List (String × DiffRecord)) ++
          (data1.filterMap (leftRecordFor (buildTokenMap data2))).map
            (fun r => (r.id, r))) b.identifier = none := by
    intro b _ r2 hr2
    rw [List.nil_append]
    apply lookup_pairs_none
    intro hmem
    obtain ⟨r1, hr1, hre⟩ := List.mem_map.mp hmem
    obtain ⟨t1, ht1, hft1⟩ := List.mem_filterMap.mp hr1
    have hid1 : r1.id = t1.identifier := leftRecordFor_id _ t1 r1 hft1
    have hbn : b.identifier ∉ data1.map (fun t => t.identifier) := by
      by_cases hm : b.identifier ∈ data1.map (fun t => t.identifier)
      · exfalso
        unfold rightRecordFor at hr2
        simp [hm] at hr2
      · exact hm
    apply hbn
    rw [← hre, hid1]
    exact List.mem_map_of_mem (fun t => t.identifier) ht1
  have hm2 := foldl_mapSet_fresh
    (fun m t2 =>
      match rightRecordFor (data1.map (fun t => t.identifier)) t2 with
      | none => m
      | some r => mapSet m r.id r)
    (rightRecordFor (data1.map (fun t => t.identifier)))
    (fun t => t.identifier) (fun r => r.id)
    (fun a r h => rightRecordFor_id _ a r h)
    (fun acc a h => by simp only [h])
    (fun acc a r h => by simp only [h]) data2
    (([] : List (String × DiffRecord)) ++
      (data1.filterMap (leftRecordFor (buildTokenMap data2))).map
        (fun r => (r.id, r))) h2 hfresh2
  have hm1b : data1.foldl (fun m t1 =>
      match leftRecordFor (buildTokenMap data2) t1 with
      | none => m
      | some r => mapSet m r.id r) [] =
      (data1.filterMap (leftRecordFor (buildTokenMap data2))).map
        (fun r => (r.id, r)) := hm1
  have hm2b : data2.foldl (fun m t2 =>
      match rightRecordFor (data1.map (fun t => t.identifier)) t2 with
      | none => m
      | some r => mapSet m r.id r)
      ((data1.filterMap (leftRecordFor (buildTokenMap data2))).map
        (fun r => (r.id, r))) =
      (data1.filterMap (leftRecordFor (buildTokenMap data2))).map
        (fun r => (r.id, r)) ++
      (data2.filterMap
        (rightRecordFor (data1.map (fun t => t.identifier)))).map
        (fun r => (r.id, r)) := hm2
  rw [hdef, hm1b, hm2b, List.map_append, List.map_map, List.map_map]
  have hcomp : ∀ (L : List DiffRecord),
      L.map (Prod.snd ∘ fun r => (r.id, r)) = L := by
    intro L
    induction L with
    | nil => rfl
    | cons x xs ih => simp [ih, Function.comp]
  rw [hcomp, hcomp]

/-- C3: with unique identifiers on each side, a token present only in the
left list (`subgraph1`) produces exactly one record — tagged
`missing_in_prod` (the source's name for missing-in-right), carrying the
left snapshot with a null right — and a token present only in the right
list (`prod`) produces exactly one record tagged `missing_in_subgraph1`
(missing-in-left) with the right snapshot and a null left. -/
theorem claim3_missing_tokens (data1 data2 : List FakeGotchiNFTToken)
    (h1 : (data1.map (fun t => t.identifier)).Nodup)
    (h2 : (data2.map (fun t => t.identifier)).Nodup) :
    (∀ t ∈ data1, t.identifier ∉ data2.map (fun x => x.identifier) →
      (findDifferences data1 data2).filter
        (fun r => r.id = t.identifier) =
        [{ id := t.identifier, differences := ["missing_in_prod"],
           subgraph1 := some (tokenSnap t), prod := none }]) ∧
    (∀ t ∈ data2, t.identifier ∉ data1.map (fun x => x.identifier) →
      (findDifferences data1 data2).filter
        (fun r => r.id = t.identifier) =
        [{ id := t.identifier, differences := ["missing_in_subgraph1"],
           subgraph1 := none, prod := some (tokenSnap t) }]) := by
  constructor
  · intro t ht hni
    rw [findDifferences_eq data1 data2 h1 h2, List.filter_append]
    have hright : (data2.filterMap
        (rightRecordFor (data1.map (fun x => x.identifier)))).filter
          (fun r => r.id = t.identifier) = [] := by
      apply filter_filterMap_nil (fun x => x.identifier) _ (fun r => r.id)
        (fun a r h => rightRecordFor_id _ a r h)
      intro x hx he
      exact hni (he ▸ List.mem_map_of_mem (fun x => x.identifier) hx)
    have hleft := filter_filterMap_self (fun x => x.identifier)
      (leftRecordFor (buildTokenMap data2)) (fun r => r.id)
      (fun a r h => leftRecordFor_id _ a r h) data1 h1 t ht
    rw [hleft, hright, List.append_nil]
    have hrec : leftRecordFor (buildTokenMap data2) t =
        some { id := t.identifier, differences := ["missing_in_prod"],
               subgraph1 := some (tokenSnap t), prod := none } := by
      unfold leftRecordFor
      rw [lookup_buildTokenMap_none data2 t.identifier hni]
    rw [hrec]
    rfl
  · intro t ht hni
    rw [findDifferences_eq data1 data2 h1 h2, List.filter_append]
    have hleft : (data1.filterMap
        (leftRecordFor (buildTokenMap data2))).filter
          (fun r => r.id = t.identifier) = [] := by
      apply filter_filterMap_nil (fun x => x.identifier) _ (fun r => r.id)
        (fun a r h => leftRecordFor_id _ a r h)
      intro x hx he
      exact hni (he ▸ List.mem_map_of_mem (fun x => x.identifier) hx)
    have hright := filter_filterMap_self (fun x => x.identifier)
      (rightRecordFor (data1.map (fun x => x.identifier)))
      (fun r => r.id) (fun a r h => rightRecordFor_id _ a r h) data2 h2 t ht
    rw [hleft, hright, List.nil_append]
    have hrec : rightRecordFor (data1.map (fun x => x.identifier)) t =
        some { id := t.identifier, differences := ["missing_in_subgraph1"],
               subgraph1 := none, prod := some (tokenSnap t) } := by
      unfold rightRecordFor
      rw [if_neg hni]
    rw [hrec]
    rfl

/-- Witness for `claim3_missing_tokens`: the end-to-end example of the
spec, a right-only token yields one `missing_in_subgraph1` record. -/
theorem claim3_witness :
    (findDifferences
        [{ id := "0", identifier := "1", name := "Cat", artistName := "Bob",
           editions := 2 }]
        [{ id := "0", identifier := "1", name := "Cat", artistName := "Bob",
           editions := 2 },
         { id := "0", identifier := "2", name := "Dog", artistName := "Ann",
           editions := 1 }]).filter (fun r => r.id = "2") =
      [{ id := "2", differences := ["missing_in_subgraph1"],
         subgraph1 := none,
         prod := some { name := "Dog", artistName := "Ann", editions := 1,
                        identifier := "2" } }] :=
  (claim3_missing_tokens
      [{ id := "0", identifier := "1", name := "Cat", artistName := "Bob",
         editions := 2 }]
      [{ id := "0", identifier := "1", name := "Cat", artistName := "Bob",
         editions := 2 },
       { id := "0", identifier := "2", name := "Dog", artistName := "Ann",
         editions := 1 }]
      (by decide) (by decide)).2
    { id := "0", identifier := "2", name := "Dog", artistName := "Ann",
      editions := 1 }
    (by decide) (by decide)

/-! ### Claim C6: `compareData` on ids missing from the contract data -/

/-- A push-only fold is the filterMap of its per-element records. -/
theorem foldl_append_toList {α ρ : Type} (f : α → Option ρ) :
    ∀ (l : List α) (init : List ρ),
      l.foldl (fun acc a => acc ++ (f a).toList) init =
        init ++ l.filterMap f := by
  intro l
  induction l with
  | nil => intro init; simp
  | cons a l ih =>
    intro init
    simp only [List.foldl_cons]
    rw [ih (init ++ (f a).toList)]
    cases hfa : f a with
    | none => simp [List.filterMap_cons_none hfa]
    | some r => simp [List.filterMap_cons_some hfa]

theorem compareData_eq (contractData : List (String × ContractMetadata))
    (collectionsData : List FakeGotchiCollection) :
    compareData contractData collectionsData =
      collectionsData.filterMap (compareRecordFor contractData) := by
  have h := foldl_append_toList (compareRecordFor contractData)
    collectionsData []
  simpa [compareData] using h

theorem fetchContractData_eq_nil
    (results : String → Option ContractMetadata)
    (collectionsData : List FakeGotchiCollection) :
    fetchContractData results collectionsData = [] := by
  have hbody : ∀ (acc : List (String × ContractMetadata))
      (c : FakeGotchiCollection),
      (match results c.id with
       | some _ => acc
       | none => acc) = acc := by
    intro acc c
    cases results c.id <;> rfl
  have hgen : ∀ (l : List FakeGotchiCollection)
      (acc : List (String × ContractMetadata)),
      l.foldl (fun acc c =>
        match results c.id with
        | some _ => acc
        | none => acc) acc = acc := by
    intro l
    induction l with
    | nil => intro acc; rfl
    | cons c l ih =>
      intro acc
      simp only [List.foldl_cons]
      rw [hbody acc c, ih acc]
  exact hgen collectionsData []

/-- C6: a collection whose id is absent from the fetched contract data
yields exactly one `missing_in_contract` record with the subgraph
snapshot and a null contract side, placed in sequence between the records
of the collections before and after it (processing continues); moreover
`fetchContractMetadata` never stores a fetched entry (the store is
commented out), so every collection — in particular every one whose
per-item read failed and was skipped — flows into this case and the whole
comparison degenerates to one `missing_in_contract` record per
collection. -/
theorem claim6_missing_contract :
    (∀ (contractData : List (String × ContractMetadata))
       (pre post : List FakeGotchiCollection) (c : FakeGotchiCollection),
      lookupMap contractData c.id = none →
      compareData contractData (pre ++ c :: post) =
        compareData contractData pre ++
        { id := c.id, differences := ["missing_in_contract"],
          subgraph := { name := c.name, artistName := c.artistName,
                        editions := c.editions },
          contract := none } :: compareData contractData post) ∧
    (∀ (results : String → Option ContractMetadata)
       (cs : List FakeGotchiCollection),
      fetchContractData results cs = [] ∧
      compareData (fetchContractData results cs) cs =
        cs.map (fun c =>
          { id := c.id, differences := ["missing_in_contract"],
            subgraph := { name := c.name, artistName := c.artistName,
                          editions := c.editions },
            contract := none })) := by
  constructor
  · intro contractData pre post c h
    have hrec : compareRecordFor contractData c =
        some { id := c.id, differences := ["missing_in_contract"],
               subgraph := { name := c.name, artistName := c.artistName,
                             editions := c.editions },
               contract := none } := by
      unfold compareRecordFor
      rw [h]
    rw [compareData_eq, compareData_eq, compareData_eq,
      List.filterMap_append, List.filterMap_cons_some hrec]
  · intro results cs
    refine ⟨fetchContractData_eq_nil results cs, ?_⟩
    rw [fetchContractData_eq_nil results cs, compareData_eq]
    induction cs with
    | nil => rfl
    | cons c cs ih =>
      have hrec : compareRecordFor [] c =
          some { id := c.id, differences := ["missing_in_contract"],
                 subgraph := { name := c.name, artistName := c.artistName,
                               editions := c.editions },
                 contract := none } := rfl
      rw [List.filterMap_cons_some hrec, List.map_cons, ih]

/-- Witness for `claim6_missing_contract` at a concrete input. -/
theorem claim6_witness :
    compareData []
        [{ id := "1", name := "A", artistName := "X", editions := 5 }] =
      [{ id := "1", differences := ["missing_in_contract"],
         subgraph := { name := "A", artistName := "X", editions := 5 },
         contract := none }] :=
  claim6_missing_contract.1 [] [] []
    { id := "1", name := "A", artistName := "X", editions := 5 } rfl

/-! ### Claim C4: the keyed collection differ -/

theorem map_snd_pairs {ρ : Type} (rid : ρ → String) :
    ∀ (L : List ρ), (L.map (fun r => (rid r, r))).map Prod.snd = L := by
  intro L
  induction L with
  | nil => rfl
  | cons x xs ih => simp [ih]

theorem subMap_eq (collectionsData : List FakeGotchiCollection)
    (hs : (collectionsData.map (fun c => c.id)).Nodup) :
    subgraphCollMap collectionsData =
      collectionsData.map (fun c => (c.id, c)) := by
  have h := foldl_mapSet_fresh
    (fun m (c : FakeGotchiCollection) => mapSet m c.id c)
    (fun c => some c) (fun c => c.id) (fun c => c.id)
    (fun a r h => by cases h; rfl)
    (fun acc a h => by cases h)
    (fun acc a r h => by cases h; rfl)
    collectionsData [] hs (fun a _ r _ => rfl)
  simpa [subgraphCollMap] using h

theorem contractColls_eq (contractData : List (String × ContractMetadata))
    (hc : (contractData.map Prod.fst).Nodup) :
    contractCollsOf contractData =
      (contractData.map mkContractColl).map (fun r => (r.id, r)) := by
  have h := foldl_mapSet_fresh
    (fun r (p : String × ContractMetadata) => mapSet r p.1 (mkContractColl p))
    (fun p => some (mkContractColl p)) Prod.fst
    (fun c => c.id)
    (fun a r h => by cases h; rfl)
    (fun acc a h => by cases h)
    (fun acc a r h => by cases h; rfl)
    contractData [] hc (fun a _ r _ => rfl)
  have hfm : ∀ (l : List (String × ContractMetadata)),
      l.filterMap (fun p => some (mkContractColl p)) =
        l.map mkContractColl := by
    intro l
    induction l with
    | nil => rfl
    | cons p l ih =>
      simp [List.filterMap_cons, ih]
  rw [hfm] at h
  simpa [contractCollsOf] using h

theorem contractArray_eq (contractData : List (String × ContractMetadata))
    (hc : (contractData.map Prod.fst).Nodup) :
    contractArrayOf contractData = contractData.map mkContractColl := by
  rw [contractArrayOf, contractColls_eq contractData hc, map_snd_pairs]

theorem contractArray_ids (contractData : List (String × ContractMetadata))
    (hc : (contractData.map Prod.fst).Nodup) :
    (contractArrayOf contractData).map (fun c => c.id) =
      contractData.map Prod.fst := by
  rw [contractArray_eq contractData hc, List.map_map]
  rfl

theorem conMap_eq (contractData : List (String × ContractMetadata))
    (hc : (contractData.map Prod.fst).Nodup) :
    contractCollMap contractData =
      (contractArrayOf contractData).map (fun c => (c.id, c)) := by
  have hnd : ((contractArrayOf contractData).map (fun c => c.id)).Nodup := by
    rw [contractArray_ids contractData hc]
    exact hc
  have h := foldl_mapSet_fresh
    (fun m (c : ContractCollection) => mapSet m c.id c)
    (fun c => some c) (fun c => c.id) (fun c => c.id)
    (fun a r h => by cases h; rfl)
    (fun acc a h => by cases h)
    (fun acc a r h => by cases h; rfl)
    (contractArrayOf contractData) [] hnd (fun a _ r _ => rfl)
  simpa [contractCollMap] using h

theorem subMap_keys (collectionsData : List FakeGotchiCollection)
    (hs : (collectionsData.map (fun c => c.id)).Nodup) :
    (subgraphCollMap collectionsData).map Prod.fst =
      collectionsData.map (fun c => c.id) := by
  rw [subMap_eq collectionsData hs, List.map_map]
  rfl

theorem conMap_keys (contractData : List (String × ContractMetadata))
    (hc : (contractData.map Prod.fst).Nodup) :
    (contractCollMap contractData).map Prod.fst =
      contractData.map Prod.fst := by
  rw [conMap_eq contractData hc, List.map_map]
  have : ((contractArrayOf contractData).map
      (Prod.fst ∘ fun c => (c.id, c))) =
      (contractArrayOf contractData).map (fun c => c.id) := rfl
  rw [this, contractArray_ids contractData hc]

theorem lookup_subMap_some (collectionsData : List FakeGotchiCollection)
    (hs : (collectionsData.map (fun c => c.id)).Nodup)
    (c : FakeGotchiCollection) (hcmem : c ∈ collectionsData) :
    lookupMap (subgraphCollMap collectionsData) c.id = some c := by
  have h := lookup_fold_build_mem
    (fun c : FakeGotchiCollection => c.id)
    (fun c : FakeGotchiCollection => c)
    collectionsData [] c hcmem hs
  simpa [subgraphCollMap] using h

theorem lookup_subMap_none (collectionsData : List FakeGotchiCollection)
    (k : String) (hk : k ∉ collectionsData.map (fun c => c.id)) :
    lookupMap (subgraphCollMap collectionsData) k = none := by
  have h := lookup_fold_build_untouched
    (fun c : FakeGotchiCollection => c.id)
    (fun c : FakeGotchiCollection => c)
    collectionsData [] k hk
  simpa [subgraphCollMap, lookupMap] using h

theorem lookup_conMap_some (contractData : List (String × ContractMetadata))
    (hc : (contractData.map Prod.fst).Nodup)
    (p : String × ContractMetadata) (hp : p ∈ contractData) :
    lookupMap (contractCollMap contractData) p.1 =
      some (mkContractColl p) := by
  have hnd : ((contractArrayOf contractData).map (fun c => c.id)).Nodup := by
    rw [contractArray_ids contractData hc]
    exact hc
  have hmem : mkContractColl p ∈ contractArrayOf contractData := by
    rw [contractArray_eq contractData hc]
    exact List.mem_map_of_mem mkContractColl hp
  have h := lookup_fold_build_mem
    (fun c : ContractCollection => c.id)
    (fun c : ContractCollection => c)
    (contractArrayOf contractData) [] (mkContractColl p) hmem hnd
  simpa [contractCollMap] using h

theorem lookup_conMap_none (contractData : List (String × ContractMetadata))
    (hc : (contractData.map Prod.fst).Nodup)
    (k : String) (hk : k ∉ contractData.map Prod.fst) :
    lookupMap (contractCollMap contractData) k = none := by
  have hk2 : k ∉ (contractArrayOf contractData).map (fun c => c.id) := by
    rw [contractArray_ids contractData hc]
    exact hk
  have h := lookup_fold_build_untouched
    (fun c : ContractCollection => c.id)
    (fun c : ContractCollection => c)
    (contractArrayOf contractData) [] k hk2
  simpa [contractCollMap, lookupMap] using h

theorem keyedRecordFor_id (sm : List (String × FakeGotchiCollection))
    (cm : List (String × ContractCollection)) (id : String)
    (r : KeyedRecord) (h : keyedRecordFor sm cm id = some r) :
    r.id = id := by
  unfold keyedRecordFor at h
  cases hs : lookupMap sm id with
  | none =>
    rw [hs] at h
    simp only [Option.some_inj] at h
    rw [← h]
  | some sc =>
    rw [hs] at h
    cases hcn : lookupMap cm id with
    | none =>
      rw [hcn] at h
      simp only [Option.some_inj] at h
      rw [← h]
    | some cc =>
      rw [hcn] at h
      by_cases hd : keyedDiffFields sc cc = []
      · simp [hd] at h
      · simp only [hd, if_false, Option.some_inj] at h
        rw [← h]

theorem compareCollectionData_eq
    (contractData : List (String × ContractMetadata))
    (collectionsData : List FakeGotchiCollection) :
    compareCollectionData contractData collectionsData =
      (firstSeen ((subgraphCollMap collectionsData).map Prod.fst ++
          (contractCollMap contractData).map Prod.fst)).filterMap
        (keyedRecordFor (subgraphCollMap collectionsData)
          (contractCollMap contractData)) := by
  have h := foldl_append_toList
    (keyedRecordFor (subgraphCollMap collectionsData)
      (contractCollMap contractData))
    (firstSeen ((subgraphCollMap collectionsData).map Prod.fst ++
      (contractCollMap contractData).map Prod.fst)) []
  simpa [compareCollectionData] using h

/-- C4: the keyed Collection Differ iterates the union of the two key
sets; a key present only in the subgraph map yields one
`missing_in_contract` record with the subgraph snapshot and null
contract, a key present only in the contract data yields one
`missing_in_subgraph` record with the contract snapshot and null
subgraph, and a key present on both sides yields a record (with both
snapshots) exactly when at least one of `name`, `artistName`, `editions`
differs.  (The spec's `missing_in_<side>` are the source's
`missing_in_subgraph` / `missing_in_contract`.) -/
theorem claim4_keyed_diff (contractData : List (String × ContractMetadata))
    (collectionsData : List FakeGotchiCollection)
    (hs : (collectionsData.map (fun c => c.id)).Nodup)
    (hc : (contractData.map Prod.fst).Nodup) :
    (∀ c ∈ collectionsData, c.id ∉ contractData.map Prod.fst →
      (compareCollectionData contractData collectionsData).filter
        (fun r => r.id = c.id) =
        [{ id := c.id, differences := ["missing_in_contract"],
           subgraph := some c, contract := none }]) ∧
    (∀ p ∈ contractData, p.1 ∉ collectionsData.map (fun c => c.id) →
      (compareCollectionData contractData collectionsData).filter
        (fun r => r.id = p.1) =
        [{ id := p.1, differences := ["missing_in_subgraph"],
           subgraph := none, contract := some (mkContractColl p) }]) ∧
    (∀ c ∈ collectionsData, ∀ p ∈ contractData, c.id = p.1 →
      (compareCollectionData contractData collectionsData).filter
        (fun r => r.id = c.id) =
        (if keyedDiffFields c (mkContractColl p) = [] then []
         else [{ id := c.id,
                 differences := keyedDiffFields c (mkContractColl p),
                 subgraph := some c,
                 contract := some (mkContractColl p) }])) := by
  have hkeys : (subgraphCollMap collectionsData).map Prod.fst ++
      (contractCollMap contractData).map Prod.fst =
      collectionsData.map (fun c => c.id) ++ contractData.map Prod.fst := by
    rw [subMap_keys collectionsData hs, conMap_keys contractData hc]
  have heq : compareCollectionData contractData collectionsData =
      (firstSeen (collectionsData.map (fun c => c.id) ++
        contractData.map Prod.fst)).filterMap
        (keyedRecordFor (subgraphCollMap collectionsData)
          (contractCollMap contractData)) := by
    rw [compareCollectionData_eq, hkeys]
  have hnd : ((firstSeen (collectionsData.map (fun c => c.id) ++
      contractData.map Prod.fst)).map (fun s : String => s)).Nodup := by
    simpa using nodup_firstSeen
      (collectionsData.map (fun c => c.id) ++ contractData.map Prod.fst)
  refine ⟨?_, ?_, ?_⟩
  · intro c hcmem hni
    have hmem : c.id ∈ firstSeen (collectionsData.map (fun c => c.id) ++
        contractData.map Prod.fst) := by
      rw [mem_firstSeen]
      exact List.mem_append_left _
        (List.mem_map_of_mem (fun c => c.id) hcmem)
    have hflt : ((firstSeen (collectionsData.map (fun c => c.id) ++
        contractData.map Prod.fst)).filterMap
          (keyedRecordFor (subgraphCollMap collectionsData)
            (contractCollMap contractData))).filter
          (fun r => r.id = c.id) =
        (keyedRecordFor (subgraphCollMap collectionsData)
          (contractCollMap contractData) c.id).toList :=
      filter_filterMap_self (fun s : String => s) _ (fun r => r.id)
        (fun a r h => keyedRecordFor_id _ _ a r h) _ hnd c.id hmem
    rw [heq, hflt]
    have hrec : keyedRecordFor (subgraphCollMap collectionsData)
        (contractCollMap contractData) c.id =
        some { id := c.id, differences := ["missing_in_contract"],
               subgraph := some c, contract := none } := by
      unfold keyedRecordFor
      rw [lookup_subMap_some collectionsData hs c hcmem,
        lookup_conMap_none contractData hc c.id hni]
    rw [hrec]
    rfl
  · intro p hpmem hni
    have hmem : p.1 ∈ firstSeen (collectionsData.map (fun c => c.id) ++
        contractData.map Prod.fst) := by
      rw [mem_firstSeen]
      exact List.mem_append_right _ (List.mem_map_of_mem Prod.fst hpmem)
    have hflt : ((firstSeen (collectionsData.map (fun c => c.id) ++
        contractData.map Prod.fst)).filterMap
          (keyedRecordFor (subgraphCollMap collectionsData)
            (contractCollMap contractData))).filter
          (fun r => r.id = p.1) =
        (keyedRecordFor (subgraphCollMap collectionsData)
          (contractCollMap contractData) p.1).toList :=
      filter_filterMap_self (fun s : String => s) _ (fun r => r.id)
        (fun a r h => keyedRecordFor_id _ _ a r h) _ hnd p.1 hmem
    rw [heq, hflt]
    have hrec : keyedRecordFor (subgraphCollMap collectionsData)
        (contractCollMap contractData) p.1 =
        some { id := p.1, differences := ["missing_in_subgraph"],
               subgraph := none, contract := some (mkContractColl p) } := by
      unfold keyedRecordFor
      rw [lookup_subMap_none collectionsData p.1 hni,
        lookup_conMap_some contractData hc p hpmem]
    rw [hrec]
    rfl
  · intro c hcmem p hpmem hcp
    have hmem : c.id ∈ firstSeen (collectionsData.map (fun c => c.id) ++
        contractData.map Prod.fst) := by
      rw [mem_firstSeen]
      exact List.mem_append_left _
        (List.mem_map_of_mem (fun c => c.id) hcmem)
    have hflt : ((firstSeen (collectionsData.map (fun c => c.id) ++
        contractData.map Prod.fst)).filterMap
          (keyedRecordFor (subgraphCollMap collectionsData)
            (contractCollMap contractData))).filter
          (fun r => r.id = c.id) =
        (keyedRecordFor (subgraphCollMap collectionsData)
          (contractCollMap contractData) c.id).toList :=
      filter_filterMap_self (fun s : String => s) _ (fun r => r.id)
        (fun a r h => keyedRecordFor_id _ _ a r h) _ hnd c.id hmem
    rw [heq, hflt]
    have hcon : lookupMap (contractCollMap contractData) c.id =
        some (mkContractColl p) := by
      rw [hcp]
      exact lookup_conMap_some contractData hc p hpmem
    have hrec : keyedRecordFor (subgraphCollMap collectionsData)
        (contractCollMap contractData) c.id =
        (if keyedDiffFields c (mkContractColl p) = [] then none
         else some { id := c.id,
                     differences := keyedDiffFields c (mkContractColl p),
                     subgraph := some c,
                     contract := some (mkContractColl p) }) := by
      unfold keyedRecordFor
      rw [lookup_subMap_some collectionsData hs c hcmem, hcon]
    rw [hrec]
    by_cases hd : keyedDiffFields c (mkContractColl p) = []
    · rw [if_pos hd, if_pos hd]
      rfl
    · rw [if_neg hd, if_neg hd]
      rfl

/-- Witness for `claim4_keyed_diff`: the spec's keyed-diff example, equal
name and artist but editionCount 5 vs 6 yields exactly one record for id
1, tagged with the single kind `editions`. -/
theorem claim4_witness :
    (compareCollectionData
        [("1", { name := "A", artistName := "X", editions := 6,
                 identifier := 1 })]
        [{ id := "1", name := "A", artistName := "X", editions := 5 }]).filter
      (fun r => r.id = "1") =
      [{ id := "1", differences := ["editions"],
         subgraph := some { id := "1", name := "A", artistName := "X",
                            editions := 5 },
         contract := some { name := "A", artistName := "X", editions := 6,
                            id := "1" } }] := by
  have h := (claim4_keyed_diff
      [("1", { name := "A", artistName := "X", editions := 6,
               identifier := 1 })]
      [{ id := "1", name := "A", artistName := "X", editions := 5 }]
      (by decide) (by decide)).2.2
    { id := "1", name := "A", artistName := "X", editions := 5 }
    (by decide)
    ("1", { name := "A", artistName := "X", editions := 6, identifier := 1 })
    (by decide) rfl
  simpa using h

/-! ### Claim C7: the positional collection differ -/

/-- The positional differ as the claim describes it: walk index `i` from
0 upward while either list has an element; `left[i]` absent gives
`missing_in_subgraph1` (missing-in-left) with the right snapshot,
`right[i]` absent gives `missing_in_prod` (missing-in-right) with the
left snapshot, both present gives a record iff a field differs.  Stated
as structural recursion over the two lists with the running index
explicit; proved equal to the source's loop in
`claim7_positional_diff`. -/
def positionalDiffList : Nat → List Collection → List Collection →
    List PosRecord
  | _, [], [] => []
  | i, [], c2 :: r2 =>
    { id := toString i, differences := ["missing_in_subgraph1"],
      subgraph1 := none, prod := some (collSnap c2) } ::
      positionalDiffList (i + 1) [] r2
  | i, c1 :: r1, [] =>
    { id := toString i, differences := ["missing_in_prod"],
      subgraph1 := some (collSnap c1), prod := none } ::
      positionalDiffList (i + 1) r1 []
  | i, c1 :: r1, c2 :: r2 =>
    (if collDiffFields c1 c2 = [] then []
     else [{ id := toString i, differences := collDiffFields c1 c2,
             subgraph1 := some (collSnap c1),
             prod := some (collSnap c2) }]) ++
      positionalDiffList (i + 1) r1 r2

/-- `posRecordFor` with the base index made explicit, for the induction
relating the range loop to `positionalDiffList`. -/
def posRecordForK (k : Nat) (cs1 cs2 : List Collection) (j : Nat) :
    Option PosRecord :=
  match listIdx cs1 j, listIdx cs2 j with
  | none, some c2 =>
    some { id := toString (k + j), differences := ["missing_in_subgraph1"],
           subgraph1 := none, prod := some (collSnap c2) }
  | some c1, none =>
    some { id := toString (k + j), differences := ["missing_in_prod"],
           subgraph1 := some (collSnap c1), prod := none }
  | some c1, some c2 =>
    let d := collDiffFields c1 c2
    if d = [] then none
    else some { id := toString (k + j), differences := d,
                subgraph1 := some (collSnap c1),
                prod := some (collSnap c2) }
  | none, none => none

theorem filterMap_congr_mem {α β : Type} {f g : α → Option β} :
    ∀ (l : List α), (∀ a ∈ l, f a = g a) →
      l.filterMap f = l.filterMap g := by
  intro l
  induction l with
  | nil => intro _; rfl
  | cons a l ih =>
    intro h
    rw [List.filterMap_cons, List.filterMap_cons,
      h a (List.mem_cons_self a l), ih (fun b hb =>
        h b (List.mem_cons_of_mem a hb))]

theorem posRecordForK_zero (cs1 cs2 : List Collection) (j : Nat) :
    posRecordForK 0 cs1 cs2 j = posRecordFor cs1 cs2 j := by
  unfold posRecordForK posRecordFor
  cases h1 : listIdx cs1 j <;> cases h2 : listIdx cs2 j <;>
    simp [Nat.zero_add]

theorem posRecordForK_succ (k : Nat) (cs1 cs2 : List Collection) (j : Nat) :
    posRecordForK k cs1 cs2 (j + 1) =
      posRecordForK (k + 1) cs1.tail cs2.tail j := by
  have hidx : k + (j + 1) = k + 1 + j := by omega
  have htail : ∀ (l : List Collection), listIdx l (j + 1) = listIdx l.tail j := by
    intro l
    cases l with
    | nil => rfl
    | cons c r => rfl
  unfold posRecordForK
  rw [htail cs1, htail cs2, hidx]

theorem range_filterMap_posK_nil_left :
    ∀ (cs2 : List Collection) (k : Nat),
      (List.range (max ([] : List Collection).length cs2.length)).filterMap
        (posRecordForK k [] cs2) = positionalDiffList k [] cs2 := by
  intro cs2
  induction cs2 with
  | nil => intro k; simp [positionalDiffList]
  | cons c2 r2 ih =>
    intro k
    have ih2 : (List.range r2.length).filterMap
        (posRecordForK (k + 1) [] r2) = positionalDiffList (k + 1) [] r2 := by
      have h := ih (k + 1)
      simpa using h
    have hlen : max ([] : List Collection).length (c2 :: r2).length =
        r2.length + 1 := by
      simp
    rw [hlen, List.range_succ_eq_map, List.filterMap_cons,
      List.filterMap_map]
    have hhead : posRecordForK k [] (c2 :: r2) 0 =
        some { id := toString (k + 0),
               differences := ["missing_in_subgraph1"],
               subgraph1 := none, prod := some (collSnap c2) } := rfl
    have htail : (List.range r2.length).filterMap
        (posRecordForK k [] (c2 :: r2) ∘ Nat.succ) =
        (List.range r2.length).filterMap (posRecordForK (k + 1) [] r2) := by
      apply filterMap_congr_mem
      intro j _
      exact posRecordForK_succ k [] (c2 :: r2) j
    rw [hhead, htail, ih2]
    simp [positionalDiffList]

theorem range_filterMap_posK_nil_right :
    ∀ (cs1 : List Collection) (k : Nat),
      (List.range (max cs1.length ([] : List Collection).length)).filterMap
        (posRecordForK k cs1 []) = positionalDiffList k cs1 [] := by
  intro cs1
  induction cs1 with
  | nil => intro k; simp [positionalDiffList]
  | cons c1 r1 ih =>
    intro k
    have ih2 : (List.range r1.length).filterMap
        (posRecordForK (k + 1) r1 []) = positionalDiffList (k + 1) r1 [] := by
      have h := ih (k + 1)
      simpa using h
    have hlen : max (c1 :: r1).length ([] : List Collection).length =
        r1.length + 1 := by
      simp
    rw [hlen, List.range_succ_eq_map, List.filterMap_cons,
      List.filterMap_map]
    have hhead : posRecordForK k (c1 :: r1) [] 0 =
        some { id := toString (k + 0), differences := ["missing_in_prod"],
               subgraph1 := some (collSnap c1), prod := none } := rfl
    have htail : (List.range r1.length).filterMap
        (posRecordForK k (c1 :: r1) [] ∘ Nat.succ) =
        (List.range r1.length).filterMap (posRecordForK (k + 1) r1 []) := by
      apply filterMap_congr_mem
      intro j _
      exact posRecordForK_succ k (c1 :: r1) [] j
    rw [hhead, htail, ih2]
    simp [positionalDiffList]

theorem range_filterMap_posK :
    ∀ (cs1 cs2 : List Collection) (k : Nat),
      (List.range (max cs1.length cs2.length)).filterMap
        (posRecordForK k cs1 cs2) = positionalDiffList k cs1 cs2 := by
  intro cs1
  induction cs1 with
  | nil => intro cs2 k; exact range_filterMap_posK_nil_left cs2 k
  | cons c1 r1 ih =>
    intro cs2 k
    cases cs2 with
    | nil => exact range_filterMap_posK_nil_right (c1 :: r1) k
    | cons c2 r2 =>
      have hlen : max (c1 :: r1).length (c2 :: r2).length =
          max r1.length r2.length + 1 := by
        simp [Nat.succ_max_succ]
      rw [hlen, List.range_succ_eq_map, List.filterMap_cons,
        List.filterMap_map]
      have htail : (List.range (max r1.length r2.length)).filterMap
          (posRecordForK k (c1 :: r1) (c2 :: r2) ∘ Nat.succ) =
          (List.range (max r1.length r2.length)).filterMap
            (posRecordForK (k + 1) r1 r2) := by
        apply filterMap_congr_mem
        intro j _
        exact posRecordForK_succ k (c1 :: r1) (c2 :: r2) j
      rw [htail, ih r2 (k + 1)]
      have hhead : posRecordForK k (c1 :: r1) (c2 :: r2) 0 =
          (if collDiffFields c1 c2 = [] then none
           else some { id := toString (k + 0),
                       differences := collDiffFields c1 c2,
                       subgraph1 := some (collSnap c1),
                       prod := some (collSnap c2) }) := rfl
      rw [hhead]
      by_cases hd : collDiffFields c1 c2 = []
      · rw [if_pos hd]
        simp [positionalDiffList, hd]
      · rw [if_neg hd]
        simp [positionalDiffList, hd]

theorem findCollectionDifferences_eq (cs1 cs2 : List Collection) :
    findCollectionDifferences cs1 cs2 =
      (List.range (max cs1.length cs2.length)).filterMap
        (posRecordFor cs1 cs2) := by
  have h := foldl_append_toList (posRecordFor cs1 cs2)
    (List.range (max cs1.length cs2.length)) []
  simpa [findCollectionDifferences] using h

/-- C7: the positional Collection Differ walks index `i` from 0 to
`max(len left, len right) - 1`; a missing `left[i]` emits
`missing_in_subgraph1` (the source's name for missing-in-left) with the
right snapshot, a missing `right[i]` emits `missing_in_prod`
(missing-in-right) with the left snapshot, and when both exist a record
with both snapshots is emitted iff `name`, `artistName` or `editions`
differ — i.e. the loop equals the per-index case analysis
`positionalDiffList` started at index 0. -/
theorem claim7_positional_diff (cs1 cs2 : List Collection) :
    findCollectionDifferences cs1 cs2 = positionalDiffList 0 cs1 cs2 := by
  rw [findCollectionDifferences_eq]
  have hpt : (List.range (max cs1.length cs2.length)).filterMap
      (posRecordFor cs1 cs2) =
      (List.range (max cs1.length cs2.length)).filterMap
        (posRecordForK 0 cs1 cs2) := by
    apply filterMap_congr_mem
    intro j _
    exact (posRecordForK_zero cs1 cs2 j).symm
  rw [hpt, range_filterMap_posK cs1 cs2 0]

/-! ### Claim C5: the paginated fetch loop -/

theorem fetchGo_cap (oracle : Nat → List FakeGotchiNFTToken) :
    ∀ (fuel : Nat) (acc : List FakeGotchiNFTToken) (skip : Nat),
      ¬ (acc.length < 50000) → fetchGo oracle fuel acc skip = acc := by
  intro fuel acc skip h
  cases fuel with
  | zero => rfl
  | succ f => simp [fetchGo, h]

theorem fetchGo_empty (oracle : Nat → List FakeGotchiNFTToken)
    (fuel : Nat) (acc : List FakeGotchiNFTToken) (skip : Nat)
    (hlt : acc.length < 50000) (he : (oracle skip).length = 0) :
    fetchGo oracle (fuel + 1) acc skip = acc := by
  simp [fetchGo, hlt, he]

theorem fetchGo_step (oracle : Nat → List FakeGotchiNFTToken)
    (fuel : Nat) (acc : List FakeGotchiNFTToken) (skip : Nat)
    (hlt : acc.length < 50000) (hne : ¬ ((oracle skip).length = 0)) :
    fetchGo oracle (fuel + 1) acc skip =
      fetchGo oracle fuel (acc ++ oracle skip)
        (skip + (oracle skip).length) := by
  simp [fetchGo, hlt, hne]

theorem fetchGo_bound (oracle : Nat → List FakeGotchiNFTToken)
    (hb : ∀ s, (oracle s).length ≤ 1000) :
    ∀ (fuel : Nat) (acc : List FakeGotchiNFTToken) (skip : Nat),
      acc.length ≤ 50999 → (fetchGo oracle fuel acc skip).length ≤ 50999 := by
  intro fuel
  induction fuel with
  | zero => intro acc skip h; exact h
  | succ f ih =>
    intro acc skip h
    by_cases hlt : acc.length < 50000
    · by_cases he : (oracle skip).length = 0
      · rw [fetchGo_empty oracle f acc skip hlt he]
        exact h
      · rw [fetchGo_step oracle f acc skip hlt he]
        apply ih
        have hbs := hb skip
        rw [List.length_append]
        omega
    · rw [fetchGo_cap oracle (f + 1) acc skip hlt]
      exact h

/-- Oracle for the counterexample to C5: batches of one token at offsets
0 and 1 (both far below the page size 1000), then end of data.  If the
loop stopped "as soon as a batch returns fewer records than the page
size", the second token would never be requested. -/
def shortBatchOracle : Nat → List FakeGotchiNFTToken :=
  fun skip =>
    if skip = 0 then
      [{ id := "0", identifier := "1", name := "a", artistName := "b",
         editions := 1 }]
    else if skip = 1 then
      [{ id := "0", identifier := "2", name := "c", artistName := "d",
         editions := 1 }]
    else []

/-- Oracle for the counterexample to C5: one batch of 50001 records. -/
def hugeBatchOracle : Nat → List FakeGotchiNFTToken :=
  fun _ => List.replicate 50001
    { id := "0", identifier := "x", name := "n", artistName := "a",
      editions := 1 }

theorem hugeBatchOracle_len (s : Nat) : (hugeBatchOracle s).length = 50001 := by
  show (List.replicate 50001 _).length = 50001
  rw [List.length_replicate]

/-- C5: the claim is false on both counts.  First, a batch smaller than
the page size (1000) does not stop the loop — only an empty batch does:
with batches [1 token, 1 token, end] the result contains both tokens,
though a stop at the first short batch would have returned only the
first.  Second, the cap (50000) is checked before a fetch, not after, so
the result can exceed the cap: one batch of 50001 records yields 50001
accumulated tokens. -/
theorem claim5_counterexample :
    fetchAllData shortBatchOracle =
      [{ id := "0", identifier := "1", name := "a", artistName := "b",
         editions := 1 },
       { id := "0", identifier := "2", name := "c", artistName := "d",
         editions := 1 }] ∧
    (shortBatchOracle 0).length < 1000 ∧
    50000 < (fetchAllData hugeBatchOracle).length := by
  have o0 : shortBatchOracle 0 =
      [{ id := "0", identifier := "1", name := "a", artistName := "b",
         editions := 1 }] := rfl
  have o1 : shortBatchOracle 1 =
      [{ id := "0", identifier := "2", name := "c", artistName := "d",
         editions := 1 }] := rfl
  have o2 : shortBatchOracle 2 = [] := rfl
  refine ⟨?_, by decide, ?_⟩
  · have t1 : fetchAllData shortBatchOracle =
        fetchGo shortBatchOracle 50000
          [{ id := "0", identifier := "1", name := "a", artistName := "b",
             editions := 1 }] 1 := by
      have h := fetchGo_step shortBatchOracle 50000 [] 0 (by decide)
        (by rw [o0]; decide)
      rw [o0] at h
      simpa using h
    have t2 : fetchGo shortBatchOracle 50000
        [{ id := "0", identifier := "1", name := "a", artistName := "b",
           editions := 1 }] 1 =
        fetchGo shortBatchOracle 49999
          [{ id := "0", identifier := "1", name := "a", artistName := "b",
             editions := 1 },
           { id := "0", identifier := "2", name := "c", artistName := "d",
             editions := 1 }] 2 := by
      have h := fetchGo_step shortBatchOracle 49999
        [{ id := "0", identifier := "1", name := "a", artistName := "b",
           editions := 1 }] 1 (by decide) (by rw [o1]; decide)
      rw [o1] at h
      simpa using h
    have t3 : fetchGo shortBatchOracle 49999
        [{ id := "0", identifier := "1", name := "a", artistName := "b",
           editions := 1 },
         { id := "0", identifier := "2", name := "c", artistName := "d",
           editions := 1 }] 2 =
        [{ id := "0", identifier := "1", name := "a", artistName := "b",
           editions := 1 },
         { id := "0", identifier := "2", name := "c", artistName := "d",
           editions := 1 }] := by
      have h := fetchGo_empty shortBatchOracle 49998
        [{ id := "0", identifier := "1", name := "a", artistName := "b",
           editions := 1 },
         { id := "0", identifier := "2", name := "c", artistName := "d",
           editions := 1 }] 2 (by decide) (by rw [o2]; rfl)
      simpa using h
    rw [t1, t2, t3]
  have e1 : fetchAllData hugeBatchOracle =
      fetchGo hugeBatchOracle 50000 ([] ++ hugeBatchOracle 0)
        (0 + (hugeBatchOracle 0).length) :=
    fetchGo_step hugeBatchOracle 50000 [] 0 (by decide)
      (by rw [hugeBatchOracle_len]; decide)
  have e2 : fetchGo hugeBatchOracle 50000 ([] ++ hugeBatchOracle 0)
      (0 + (hugeBatchOracle 0).length) = [] ++ hugeBatchOracle 0 := by
    apply fetchGo_cap
    rw [List.length_append, List.length_nil, hugeBatchOracle_len]
    decide
  rw [e1, e2, List.length_append, List.length_nil, hugeBatchOracle_len]
  decide

/-- C5 (amended): the loop stops issuing further batches as soon as a
batch returns zero records or the accumulated total has reached the cap
of 50000 before the next request; consequently, when every batch is at
most the page size (1000), the returned list never exceeds
50999 = cap - 1 + page size (it can overshoot the cap by up to one
batch, but no more). -/
theorem claim5_fetch_loop (oracle : Nat → List FakeGotchiNFTToken) :
    (oracle 0 = [] → fetchAllData oracle = []) ∧
    ((∀ s, (oracle s).length ≤ 1000) →
      (fetchAllData oracle).length ≤ 50999) ∧
    (∀ (fuel : Nat) (acc : List FakeGotchiNFTToken) (skip : Nat),
      ¬ (acc.length < 50000) → fetchGo oracle fuel acc skip = acc) := by
  refine ⟨?_, ?_, fetchGo_cap oracle⟩
  · intro h0
    have he : (oracle 0).length = 0 := by rw [h0]; rfl
    exact fetchGo_empty oracle 50000 [] 0 (by simp) he
  · intro hb
    exact fetchGo_bound oracle hb 50001 [] 0 (by simp)

/-- Witness for `claim5_fetch_loop` at a concrete oracle. -/
theorem claim5_witness :
    fetchAllData (fun _ => []) = [] ∧
    (fetchAllData (fun _ => [])).length ≤ 50999 :=
  ⟨(claim5_fetch_loop (fun _ => [])).1 rfl,
   (claim5_fetch_loop (fun _ => [])).2.1 (fun s => by simp)⟩

/-! ### Claim C10: positional record ids versus grouper ids -/

theorem listIdx_assignIds : ∀ (l : List Collection) (n i : Nat),
    listIdx (assignIds n l) i =
      (listIdx l i).map (fun c => { c with id := toString (n + i) }) := by
  intro l
  induction l with
  | nil => intro n i; rfl
  | cons c cs ih =>
    intro n i
    cases i with
    | zero => rfl
    | succ j =>
      show listIdx (assignIds (n + 1) cs) j = _
      rw [ih (n + 1) j]
      have : n + 1 + j = n + (j + 1) := by omega
      rw [this]
      rfl

theorem group_listIdx (ts : List FakeGotchiNFTToken) (i : Nat) :
    listIdx (groupIntoCollections ts) i =
      (listIdx ((groupAssoc ts).map Prod.snd) i).map
        (fun c => { c with id := toString (i + 1) }) := by
  rw [groupIntoCollections, listIdx_assignIds]
  have : 1 + i = i + 1 := by omega
  rw [this]

theorem posRecordFor_id (cs1 cs2 : List Collection) (i : Nat)
    (r : PosRecord) (h : posRecordFor cs1 cs2 i = some r) :
    r.id = toString i := by
  unfold posRecordFor at h
  cases h1 : listIdx cs1 i with
  | none =>
    cases h2 : listIdx cs2 i with
    | none => rw [h1, h2] at h; simp at h
    | some c2 =>
      rw [h1, h2] at h
      simp only [Option.some_inj] at h
      rw [← h]
  | some c1 =>
    cases h2 : listIdx cs2 i with
    | none =>
      rw [h1, h2] at h
      simp only [Option.some_inj] at h
      rw [← h]
    | some c2 =>
      rw [h1, h2] at h
      by_cases hd : collDiffFields c1 c2 = []
      · simp [hd] at h
      · simp only [hd, if_false, Option.some_inj] at h
        rw [← h]

theorem toString_succ_ne (i : Nat) : toString i ≠ toString (i + 1) := by
  intro h
  have := toString_nat_injective i (i + 1) h
  omega

/-- C10: every record of the positional differ run on two grouped
collection lists carries the 0-based index rendered as a string, while
the collections compared at that index carry the 1-based index; hence
the record's id denotes exactly one less than the ids of the collections
it compares, and (decimal rendering being injective) never equals either
of them. -/
theorem claim10_record_ids (ts1 ts2 : List FakeGotchiNFTToken)
    (r : PosRecord)
    (hr : r ∈ findCollectionDifferences (groupIntoCollections ts1)
      (groupIntoCollections ts2)) :
    ∃ i, i < max (groupIntoCollections ts1).length
        (groupIntoCollections ts2).length ∧
      r.id = toString i ∧
      (∀ c1, listIdx (groupIntoCollections ts1) i = some c1 →
        c1.id = toString (i + 1) ∧ r.id ≠ c1.id) ∧
      (∀ c2, listIdx (groupIntoCollections ts2) i = some c2 →
        c2.id = toString (i + 1) ∧ r.id ≠ c2.id) := by
  rw [findCollectionDifferences_eq] at hr
  obtain ⟨i, hi, hfi⟩ := List.mem_filterMap.mp hr
  have hid : r.id = toString i := posRecordFor_id _ _ i r hfi
  refine ⟨i, List.mem_range.mp hi, hid, ?_, ?_⟩
  · intro c1 hc1
    rw [group_listIdx ts1 i] at hc1
    cases hb : listIdx ((groupAssoc ts1).map Prod.snd) i with
    | none => rw [hb] at hc1; simp at hc1
    | some c0 =>
      rw [hb] at hc1
      simp only [Option.map_some', Option.some_inj] at hc1
      constructor
      · rw [← hc1]
      · rw [hid, ← hc1]
        exact toString_succ_ne i
  · intro c2 hc2
    rw [group_listIdx ts2 i] at hc2
    cases hb : listIdx ((groupAssoc ts2).map Prod.snd) i with
    | none => rw [hb] at hc2; simp at hc2
    | some c0 =>
      rw [hb] at hc2
      simp only [Option.map_some', Option.some_inj] at hc2
      constructor
      · rw [← hc2]
      · rw [hid, ← hc2]
        exact toString_succ_ne i

/-- Witness for `claim10_record_ids` at a concrete input: one grouped
collection on the left, none on the right. -/
theorem claim10_witness :
    ∃ i, i < max (groupIntoCollections
        [{ id := "0", identifier := "1", name := "Cat", artistName := "Bob",
           editions := 1 }]).length
        (groupIntoCollections ([] : List FakeGotchiNFTToken)).length ∧
      ({ id := "0", differences := ["missing_in_prod"],
         subgraph1 := some { name := "Cat", artistName := "Bob",
                             editions := 1 },
         prod := none } : PosRecord).id = toString i ∧
      (∀ c1, listIdx (groupIntoCollections
          [{ id := "0", identifier := "1", name := "Cat",
             artistName := "Bob", editions := 1 }]) i = some c1 →
        c1.id = toString (i + 1) ∧
        ({ id := "0", differences := ["missing_in_prod"],
           subgraph1 := some { name := "Cat", artistName := "Bob",
                               editions := 1 },
           prod := none } : PosRecord).id ≠ c1.id) ∧
      (∀ c2, listIdx (groupIntoCollections
          ([] : List FakeGotchiNFTToken)) i = some c2 →
        c2.id = toString (i + 1) ∧
        ({ id := "0", differences := ["missing_in_prod"],
           subgraph1 := some { name := "Cat", artistName := "Bob",
                               editions := 1 },
           prod := none } : PosRecord).id ≠ c2.id) :=
  claim10_record_ids
    [{ id := "0", identifier := "1", name := "Cat", artistName := "Bob",
       editions := 1 }] []
    { id := "0", differences := ["missing_in_prod"],
      subgraph1 := some { name := "Cat", artistName := "Bob",
                          editions := 1 },
      prod := none }
    (by decide)
